import Mathlib

/-!
# stratum-ping: a shallow embedding of `main.go`

Go strings are modelled by Lean strings, `int` and `time.Duration` by `Int`
(with an explicit 64-bit wrap where the source computes on them), the Go
standard library functions the program calls by small executable models, and the
network, the clock and the input file by an explicit environment and an event
trace.
-/

namespace Stratum

deriving instance DecidableEq for Except

/-! ## Go standard library: `strings`, `strconv` -/

namespace strings

/-- Pieces of `s` between occurrences of the one-character separator `sep`,
as `strings.Split(s, string(sep))` returns them: one more piece than there are
separators, so the empty string gives one empty piece. -/
def splitChars (sep : Char) : List Char → List (List Char)
  | [] => [[]]
  | c :: cs =>
    if c = sep then [] :: splitChars sep cs
    else
      match splitChars sep cs with
      | [] => [[c]]
      | h :: t => (c :: h) :: t

/-- Model of `strings.Split(s, ":")` for a one-character separator. -/
def Split (s : String) (sep : Char) : List String :=
  (splitChars sep s.toList).map String.mk

/-- White space in the sense of `unicode.IsSpace`. -/
def isSpace (c : Char) : Bool :=
  c = '\t' || c = '\n' || c.toNat = 0x0B || c.toNat = 0x0C || c = '\r' || c = ' ' ||
  c.toNat = 0x85 || c.toNat = 0xA0 || c.toNat = 0x1680 ||
  (0x2000 ≤ c.toNat && c.toNat ≤ 0x200A) ||
  c.toNat = 0x2028 || c.toNat = 0x2029 || c.toNat = 0x202F || c.toNat = 0x205F ||
  c.toNat = 0x3000

/-- Model of `strings.TrimSpace`: leading and trailing white space removed. -/
def TrimSpace (s : String) : String :=
  String.mk ((s.toList.dropWhile isSpace).reverse.dropWhile isSpace).reverse

end strings

namespace strconv

/-- The two kinds of `*strconv.NumError`. -/
inductive NumError where
  | errSyntax
  | errRange
  deriving DecidableEq, Repr

/-- Digit loop of `strconv.ParseUint(s, 10, 64)`: any byte that is not a decimal
digit is a syntax error (a letter has a digit value of at least 10, the base);
a value that leaves 64 bits is a range error, reported as soon as it happens. -/
def parseDigits : List Char → Nat → Except NumError Nat
  | [], n => .ok n
  | c :: cs, n =>
    if '0' ≤ c ∧ c ≤ '9' then
      if n ≥ (2 ^ 64 - 1) / 10 + 1 then .error .errRange
      else
        let n1 := n * 10 + (c.toNat - '0'.toNat)
        if n1 > 2 ^ 64 - 1 then .error .errRange
        else parseDigits cs n1
    else .error .errSyntax

/-- Model of `strconv.ParseUint(s, 10, 64)`. -/
def ParseUint (s : List Char) : Except NumError Nat :=
  match s with
  | [] => .error .errSyntax
  | _ :: _ => parseDigits s 0

/-- Model of `strconv.ParseInt(s, 10, 64)`: an optional sign, then
`ParseUint`, then the signed 64-bit range check.  Only the error kind is kept on
failure (the caller ignores the value then). -/
def ParseInt (s : String) : Except NumError Int :=
  match s.toList with
  | [] => .error .errSyntax
  | c :: cs =>
    let neg : Bool := c = '-'
    let rest : List Char := if c = '+' ∨ c = '-' then cs else c :: cs
    match ParseUint rest with
    | .error e => .error e
    | .ok un =>
      if !neg && un ≥ 2 ^ 63 then .error .errRange
      else if neg && un > 2 ^ 63 then .error .errRange
      else .ok (if neg then -(un : Int) else (un : Int))

end strconv

/-! ## Data model -/

/-- Value of `time.Second`; a `time.Duration` is a signed 64-bit number of
nanoseconds, modelled by an integer. -/
def Second : Int := 1000000000

/-- Value of `time.Hour`. -/
def Hour : Int := 3600 * Second

/-- Two's-complement wrap of an integer to the signed 64-bit range. -/
def wrap64 (x : Int) : Int := (x + 2 ^ 63) % 2 ^ 64 - 2 ^ 63

/-- A `net.IPAddr`: the text of a non-empty IP (the empty text stands for the
IP of length zero, which the resolver returns for an empty host) and the IPv6
zone. -/
structure IPAddr where
  ip : String
  zone : String
  deriving DecidableEq, Repr

/-- Text of `net.IP.String()` on the field `IP`: `<nil>` for the IP of length
zero. -/
def IPAddr.IPString (a : IPAddr) : String :=
  if a.ip = "" then "<nil>" else a.ip

/-- Text of `(*net.IPAddr).String()`: the IP, empty for the IP of length zero,
followed by `%` and the zone when there is one. -/
def IPAddr.String (a : IPAddr) : String :=
  if a.zone = "" then a.ip else a.ip ++ "%" ++ a.zone

/-- The struct `StratumPinger`; `addr` is `none` for the nil pointer. -/
structure StratumPinger where
  login : String
  pass : String
  count : Int
  ipv6 : Bool
  host : String
  port : String
  addr : Option IPAddr
  proto : String
  tls : Bool
  deriving DecidableEq, Repr

/-! ## Validation part of `StratumPing` (lines 94-130) -/

/-- Error text of the first check. -/
def errEmptyTarget : String := "Stratum server cannot be empty\n\n"
/-- Error text of the second check. -/
def errMalformedTarget : String := "Invalid host/port specified\n\n"
/-- Error text of the third check. -/
def errInvalidCount : String := "Invalid count specified\n\n"
/-- Error text of the fourth check. -/
def errInvalidPort : String := "Invalid port specified\n\n"
/-- Error text of the fifth check. -/
def errInvalidProtocol : String := "Invalid stratum type specified\n\n"

/-- The condition `err != nil || portNum <= 0 || portNum >= 65536` of line 108. -/
def portRejected (r : Except strconv.NumError Int) : Bool :=
  match r with
  | .error _ => true
  | .ok portNum => portNum ≤ 0 || portNum ≥ 65536

/-- The checks of `StratumPing` up to the construction of the pinger: the error
returned, or the `StratumPinger` value built at lines 121-130. -/
def newPinger (server login pass : String) (count : Int) (ipv6 : Bool)
    (proto : String) (tls : Bool) : Except String StratumPinger :=
  if server.length = 0 then .error errEmptyTarget
  else
    let split := strings.Split server ':'
    if split.length ≠ 2 then .error errMalformedTarget
    else if count ≤ 0 ∨ count > 20000 then .error errInvalidCount
    else if portRejected (strconv.ParseInt (split.getD 1 "")) then .error errInvalidPort
    else if proto = "stratum1" ∨ proto = "stratum2" then
      .ok { login := login, pass := pass, count := count, host := split.getD 0 "",
            port := split.getD 1 "", ipv6 := ipv6, proto := proto, tls := tls, addr := none }
    else .error errInvalidProtocol

/-! ## IEEE 754 binary64 arithmetic, as far as line 181 uses it -/

/-- A finite binary64 value `(-1)^neg * m * 2^e`. -/
structure F64 where
  neg : Bool
  m : Nat
  e : Int
  deriving DecidableEq, Repr

namespace F64

/-- Doubles `n` (lowering the exponent) until `n / d` is at least `2^52`. -/
def scaleUp : Nat → Nat → Nat → Int → Nat × Int
  | 0, n, _, e => (n, e)
  | fuel + 1, n, d, e =>
    if n < 2 ^ 52 * d then scaleUp fuel (2 * n) d (e - 1) else (n, e)

/-- Doubles `d` (raising the exponent) until `n / d` is below `2^53`. -/
def scaleDown : Nat → Nat → Nat → Int → Nat × Int
  | 0, d, _, e => (d, e)
  | fuel + 1, d, n, e =>
    if 2 ^ 53 * d ≤ n then scaleDown fuel (2 * d) n (e + 1) else (d, e)

/-- Round-to-nearest, ties-to-even, of `n / d` to an integer. -/
def roundQuot (n d : Nat) : Nat :=
  let q := n / d
  let r := n % d
  if 2 * r > d ∨ (2 * r = d ∧ q % 2 = 1) then q + 1 else q

/-- The binary64 value nearest to `(-1)^neg * (n / d) * 2^e` (ties to even): the
quotient is scaled to 53 significant bits and rounded to an integer.  The
exponent is not bounded: the values of line 181 are far from the overflow and
underflow thresholds. -/
def round (neg : Bool) (n d : Nat) (e : Int) : F64 :=
  if n = 0 ∨ d = 0 then { neg := neg, m := 0, e := 0 }
  else
    let (n1, e1) := scaleUp (d + 52) n d e
    let (d1, e2) := scaleDown n1 d n1 e1
    { neg := neg, m := roundQuot n1 d1, e := e2 }

/-- The conversion `float64(i)` of an integer. -/
def ofInt (i : Int) : F64 := round (decide (i < 0)) i.natAbs 1 0

/-- Float division `x / y`; `none` when the divisor is zero (the result is then
an infinity or a NaN). -/
def div (x y : F64) : Option F64 :=
  if y.m = 0 then none else some (round (x.neg != y.neg) x.m y.m (x.e - y.e))

/-- Float product `x * y`. -/
def mul (x y : F64) : F64 := round (x.neg != y.neg) (x.m * y.m) 1 (x.e + y.e)

/-- The conversion `int64(x)`: truncation toward zero; `none` when the
truncated value is outside the signed 64-bit range (Go leaves the result to the
implementation then). -/
def toInt64 (x : F64) : Option Int :=
  let mag : Nat := if 0 ≤ x.e then x.m * 2 ^ x.e.toNat else x.m / 2 ^ (-x.e).toNat
  let v : Int := if x.neg then -(mag : Int) else (mag : Int)
  if -(2 ^ 63) ≤ v ∧ v < 2 ^ 63 then some v else none

end F64

/-- Line 181: `100 - int64(float64(success)/float64(p.count)*100.0)`; `none`
where the float conversion is not defined by the language. -/
def lossPercent (success count : Int) : Option Int :=
  match F64.div (F64.ofInt success) (F64.ofInt count) with
  | none => none
  | some ratio =>
    match F64.toInt64 (F64.mul ratio (F64.ofInt 100)) with
    | none => none
    | some pct => some (wrap64 (100 - pct))

/-- The magnitude of a binary64 value as a rational number. -/
def F64.mag (x : F64) : ℚ := (x.m : ℚ) * (2 : ℚ) ^ x.e

/-! ## Environment, events and the world -/

/-- A JSON value of the kinds the two requests hold. -/
inductive JSONValue where
  | number (n : Int)
  | text (s : String)
  | texts (l : List String)
  deriving DecidableEq, Repr

/-- A `map[string]interface{}` literal: its keys with their values. -/
abbrev Request := List (String × JSONValue)

/-- What the formatted print statements of the program write, one constructor
per statement, with the arguments of its format string. -/
inductive Output where
  /-- `fmt.Printf("%s\n\n", err)` of lines 52, 69, 74 and 133. -/
  | error (err : String)
  /-- Line 82. -/
  | readFileError (err : String)
  /-- Line 153. -/
  | banner (host addr tls port creds : String)
  /-- Line 165. -/
  | attemptError (host addr : String) (seq : Int) (err : String)
  /-- Line 167. -/
  | attemptTime (host addr : String) (seq : Int) (elapsed : Int)
  /-- Line 180. -/
  | statsHeader (host : String)
  /-- Line 183. -/
  | minAvgMax (min avg max : Int)
  /-- Line 185. -/
  | summary (transmitted received : Int) (loss : Option Int) (time : Int)
  deriving DecidableEq, Repr

/-- Observable steps of a run, in the order they happen. -/
inductive Event where
  /-- Entry of `(*StratumPinger).Do` with its receiver. -/
  | enterDo (p : StratumPinger)
  /-- Call of `net.ResolveIPAddr(network, host)`. -/
  | resolveIPAddr (network host : String)
  /-- Call of `tls.Dial` (`useTLS`) or `net.Dial` with the network and address. -/
  | dial (useTLS : Bool) (network address : String)
  /-- Call of `conn.SetWriteDeadline` with the timeout added to the current time. -/
  | setWriteDeadline (timeout : Int)
  /-- Call of `enc.Encode(&req)`; `none` is the nil map. -/
  | encode (req : Option Request)
  /-- Call of `conn.SetReadDeadline` with the timeout added to the current time. -/
  | setReadDeadline (timeout : Int)
  /-- Call of `buff.ReadLine()`. -/
  | readLine
  /-- Call of `conn.Close()`. -/
  | close
  /-- Call of `time.Sleep`. -/
  | sleep (d : Int)
  /-- A print statement. -/
  | printf (o : Output)
  /-- Call of `log.Fatal`, which ends the process. -/
  | fatal (err : String)
  deriving DecidableEq, Repr

/-- How one call of `DoPing` goes, as the network decides it. -/
inductive PingOutcome where
  /-- The dial fails. -/
  | dialError (err : String)
  /-- The dial succeeds and `enc.Encode` fails. -/
  | encodeError (err : String)
  /-- The request is sent and `buff.ReadLine` fails (a time-out included). -/
  | readError (err : String)
  /-- A line arrives; `elapsed` is the value of `time.Since(start)` at line 253. -/
  | reply (elapsed : Int)
  deriving DecidableEq, Repr

/-- The environment of a run: what the resolver, the network and the clock
answer, by the number of the call. -/
structure Env where
  /-- Result of the `k`-th call of `net.ResolveIPAddr`. -/
  resolveIPAddr : Nat → Except String IPAddr
  /-- Outcome of the `k`-th call of `DoPing`. -/
  attempt : Nat → PingOutcome
  /-- Value of `time.Since(start)` at line 185 in the `k`-th call of `Do`. -/
  since : Nat → Int

/-- The state of a run: the events so far and how many resolver calls and
attempts have been made. -/
structure World where
  trace : List Event
  resolves : Nat
  attempts : Nat
  deriving DecidableEq, Repr

/-- The world before the program starts. -/
def World.init : World := { trace := [], resolves := 0, attempts := 0 }

/-- Appends an event to the trace. -/
def World.emit (w : World) (ev : Event) : World := { w with trace := w.trace ++ [ev] }

/-! ## `Resolve`, `DoPing`, `Do`, `StratumPing` -/

/-- The method `Resolve` (lines 189-202): the address to store in `p.addr`, or
the error returned. -/
def Resolve (env : Env) (p : StratumPinger) (w : World) : Except String IPAddr × World :=
  let network := if p.ipv6 then "ip6" else "ip4"
  let w1 := { w.emit (.resolveIPAddr network p.host) with resolves := w.resolves + 1 }
  match env.resolveIPAddr w.resolves with
  | .error err => (.error ("Failed to resolve host name: " ++ err), w1)
  | .ok a => (.ok a, w1)

/-- The request map of lines 236-243; `none` is the nil map the variable holds
when no case of the switch applies. -/
def request (p : StratumPinger) : Option Request :=
  if p.proto = "stratum1" then
    some [("id", .number 1), ("jsonrpc", .text "2.0"), ("method", .text "eth_submitLogin"),
          ("params", .texts [p.login, p.pass])]
  else if p.proto = "stratum2" then
    some [("id", .number 1), ("method", .text "mining.subscribe"),
          ("params", .texts ["stratum-ping/1.0.0", "EthereumStratum/1.0.0"])]
  else none

/-- The method `DoPing` (lines 204-257); `a` is the value of `p.addr`, which
`Resolve` has set before any call. -/
def DoPing (env : Env) (p : StratumPinger) (a : IPAddr) (w : World) :
    Except String Int × World :=
  let network := if p.ipv6 then "tcp6" else "tcp4"
  let address := if p.ipv6 then "[" ++ a.IPString ++ "]:" ++ p.port
                 else a.IPString ++ ":" ++ p.port
  let outcome := env.attempt w.attempts
  let w1 := { w.emit (.dial p.tls network address) with attempts := w.attempts + 1 }
  match outcome with
  | .dialError err => (.error err, w1)
  | .encodeError err =>
    (.error err, (w1.emit (.setWriteDeadline (10 * Second))).emit (.encode (request p)))
  | .readError err =>
    (.error err,
      ((((w1.emit (.setWriteDeadline (10 * Second))).emit (.encode (request p))).emit
        (.setReadDeadline (10 * Second))).emit .readLine))
  | .reply elapsed =>
    (.ok elapsed,
      (((((w1.emit (.setWriteDeadline (10 * Second))).emit (.encode (request p))).emit
        (.setReadDeadline (10 * Second))).emit .readLine).emit .close))

/-- The local variables `min`, `max`, `avg`, `avgCount`, `success` of `Do`. -/
structure Stats where
  min : Int
  max : Int
  avg : Int
  avgCount : Int
  success : Int
  deriving DecidableEq, Repr

/-- Their values at lines 155-159. -/
def Stats.init : Stats := { min := Hour, max := 0, avg := 0, avgCount := 0, success := 0 }

/-- Lines 168-176: the update after a successful attempt. -/
def Stats.record (st : Stats) (elapsed : Int) : Stats :=
  { max := if elapsed > st.max then elapsed else st.max
    min := if elapsed < st.min then elapsed else st.min
    avg := wrap64 (st.avg + elapsed)
    avgCount := st.avgCount + 1
    success := st.success + 1 }

/-- The loop of lines 162-179 with `remaining` iterations left, `i` the loop
variable. -/
def doLoop (env : Env) (p : StratumPinger) (a : IPAddr) :
    Nat → Int → Stats → World → Stats × World
  | 0, _, st, w => (st, w)
  | remaining + 1, i, st, w =>
    match DoPing env p a w with
    | (.error err, w1) =>
      doLoop env p a remaining (i + 1) st
        ((w1.emit (.printf (.attemptError p.host a.String i err))).emit (.sleep (1 * Second)))
    | (.ok elapsed, w1) =>
      doLoop env p a remaining (i + 1) (st.record elapsed)
        ((w1.emit (.printf (.attemptTime p.host a.String i elapsed))).emit (.sleep (1 * Second)))

/-- The method `Do` (lines 140-187): the error returned (`none` for nil) and
the world afterwards. -/
def Do (env : Env) (p : StratumPinger) (w : World) : Option String × World :=
  match Resolve env p (w.emit (.enterDo p)) with
  | (.error err, w1) => (some err, w1)
  | (.ok a, w1) =>
    let creds := if p.proto = "stratum1" then " with credentials: " ++ p.login ++ ":" ++ p.pass
                 else ""
    let tls := if p.tls then " TLS" else ""
    let w2 := w1.emit (.printf (.banner p.host a.String tls p.port creds))
    let (st, w3) := doLoop env p a p.count.toNat 0 Stats.init w2
    let w4 := w3.emit (.printf (.statsHeader p.host))
    let loss := lossPercent st.success p.count
    let w5 := if st.success > 0 then
                w4.emit (.printf (.minAvgMax st.min (Int.tdiv st.avg st.avgCount) st.max))
              else w4
    (none, w5.emit (.printf (.summary p.count st.success loss (env.since w.resolves))))

/-- The function `StratumPing` (lines 92-138): the error returned (`none` for
nil) and the world afterwards. -/
def StratumPing (env : Env) (server login pass : String) (count : Int) (ipv6 : Bool)
    (proto : String) (tls : Bool) (w : World) : Option String × World :=
  match newPinger server login pass count ipv6 proto tls with
  | .error err => (some err, w)
  | .ok pinger =>
    match Do env pinger w with
    | (some err, w1) => (none, w1.emit (.printf (.error err)))
    | (none, w1) => (none, w1)

/-! ## `main` -/

/-- The error a read ends with. -/
inductive ReadError where
  /-- The value `io.EOF`. -/
  | eof
  /-- Any other error. -/
  | other (err : String)
  deriving DecidableEq, Repr

/-- The buffered reader over the input file: the bytes still to come and what
the file yields after them (`none`: end of file; `some err`: a read error). -/
structure Reader where
  data : List Char
  failure : Option String
  deriving DecidableEq, Repr

/-- Splits off the text up to and including the first `delim`. -/
def splitAtDelim (delim : Char) : List Char → Option (List Char × List Char)
  | [] => none
  | c :: cs =>
    if c = delim then some ([c], cs)
    else
      match splitAtDelim delim cs with
      | none => none
      | some (line, rest) => some (c :: line, rest)

/-- Model of `(*bufio.Reader).ReadString(delim)`: the text up to and including
the first `delim`; when the file ends or fails before a `delim`, the text read
so far together with the error. -/
def Reader.ReadString (r : Reader) (delim : Char) : String × Option ReadError × Reader :=
  match splitAtDelim delim r.data with
  | some (line, rest) => (String.mk line, none, { r with data := rest })
  | none =>
    (String.mk r.data,
      some (match r.failure with
            | none => ReadError.eof
            | some err => ReadError.other err),
      { r with data := [] })

/-- The parsed command line: the seven flags and `flag.Arg(0)`. -/
structure Args where
  login : String
  pass : String
  count : Int
  v6 : Bool
  proto : String
  tls : Bool
  inputFile : String
  server : String
  deriving DecidableEq, Repr

/-- The loop of lines 64-86 under a bound on the number of iterations; `none`
when the bound is reached. -/
def batchLoop (env : Env) (args : Args) : Nat → Reader → World → Option World
  | 0, _, _ => none
  | fuel + 1, buf, w =>
    match buf.ReadString '\n' with
    | (raw, err, buf1) =>
      let line := strings.TrimSpace raw
      match StratumPing env line args.login args.pass args.count args.v6 args.proto false w with
      | (some e, w1) => some (w1.emit (.printf (.error e)))
      | (none, w1) =>
        match StratumPing env line args.login args.pass args.count args.v6 args.proto true w1 with
        | (some e, w2) => some (w2.emit (.printf (.error e)))
        | (none, w2) =>
          match err with
          | some .eof => some w2
          | some (.other e) => some (w2.emit (.printf (.readFileError e)))
          | none => batchLoop env args fuel buf1 w2

/-- The function `main` (lines 36-90) after `flag.Parse()`; `file` is the
result of `os.Open` on the input file.  Every iteration of the batch loop but
the last consumes at least one byte, so one more iteration than there are bytes
is enough. -/
def main (env : Env) (args : Args) (file : Except String Reader) (w : World) : Option World :=
  if args.inputFile = "" then
    match StratumPing env args.server args.login args.pass args.count args.v6 args.proto
        args.tls w with
    | (some e, w1) => some (w1.emit (.printf (.error e)))
    | (none, w1) => some w1
  else
    match file with
    | .error err => some (w.emit (.fatal err))
    | .ok f => batchLoop env args (f.data.length + 1) f w

/-! ## The five checks, in the words of the specification -/

/-- Check 1 fails: the target is empty. -/
def EmptyTarget (server : String) : Prop := server = ""

/-- Check 2 fails: the target does not split on `:` into exactly two parts. -/
def MalformedTarget (server : String) : Prop := (strings.Split server ':').length ≠ 2

/-- Check 3 fails: the count is not in `(0, 20000]`. -/
def InvalidCount (count : Int) : Prop := count ≤ 0 ∨ count > 20000

/-- Check 4 fails: the second part does not parse as a base-10 integer `n`
with `0 < n < 65536`. -/
def InvalidPort (server : String) : Prop :=
  ¬ ∃ n : Int, strconv.ParseInt ((strings.Split server ':').getD 1 "") = .ok n ∧
    0 < n ∧ n < 65536

/-- Check 5 fails: the protocol is neither `stratum1` nor `stratum2`. -/
def InvalidProtocol (proto : String) : Prop := proto ≠ "stratum1" ∧ proto ≠ "stratum2"

/-! ## Views of a trace -/

/-- The pingers `Do` was entered with, in order: the sessions run. -/
def sessions (tr : List Event) : List StratumPinger :=
  tr.filterMap fun ev =>
    match ev with
    | .enterDo p => some p
    | _ => none

/-- The pacing of the attempt loop: an attempt starting (its dial), the line
reporting an attempt with its sequence number, a pause. -/
inductive Step where
  | attempt
  | report (seq : Int)
  | pause (d : Int)
  deriving DecidableEq, Repr

/-- The step an event stands for, if any. -/
def stepOf (ev : Event) : Option Step :=
  match ev with
  | .dial _ _ _ => some .attempt
  | .printf (.attemptError _ _ seq _) => some (.report seq)
  | .printf (.attemptTime _ _ seq _) => some (.report seq)
  | .sleep d => some (.pause d)
  | _ => none

/-- The steps of a trace, in order. -/
def steps (tr : List Event) : List Step := tr.filterMap stepOf

/-- The `min/avg/max` lines of a trace, in order. -/
def timings (tr : List Event) : List (Int × Int × Int) :=
  tr.filterMap fun ev =>
    match ev with
    | .printf (.minAvgMax mn av mx) => some (mn, av, mx)
    | _ => none

/-- The summary lines of a trace, in order: transmitted, received, loss. -/
def summaries (tr : List Event) : List (Int × Int × Option Int) :=
  tr.filterMap fun ev =>
    match ev with
    | .printf (.summary t r l _) => some (t, r, l)
    | _ => none

/-- The requests handed to the encoder, in order. -/
def encoded (tr : List Event) : List (Option Request) :=
  tr.filterMap fun ev =>
    match ev with
    | .encode r => some r
    | _ => none

/-- The elapsed time of an answered attempt. -/
def PingOutcome.elapsed? (o : PingOutcome) : Option Int :=
  match o with
  | .reply d => some d
  | _ => none

/-- The elapsed times of the answered ones among the `n` attempts from number
`start` on, in order. -/
def replies (env : Env) (start n : Nat) : List Int :=
  (List.range n).filterMap fun k => (env.attempt (start + k)).elapsed?

/-- The world of `Do` when the loop starts, after the resolver has answered
with `a`: the world at line 160. -/
def worldAtLoop (p : StratumPinger) (a : IPAddr) (w : World) : World :=
  { trace := w.trace ++
      [Event.enterDo p, Event.resolveIPAddr (if p.ipv6 then "ip6" else "ip4") p.host,
        Event.printf (Output.banner p.host a.String (if p.tls then " TLS" else "") p.port
          (if p.proto = "stratum1" then " with credentials: " ++ p.login ++ ":" ++ p.pass
           else ""))],
    resolves := w.resolves + 1,
    attempts := w.attempts }

/-- The events of lines 180-185, from the statistics `st` the loop ends with. -/
def closing (p : StratumPinger) (st : Stats) (time : Int) : List Event :=
  [Event.printf (Output.statsHeader p.host)] ++
    (if st.success > 0 then
      [Event.printf (Output.minAvgMax st.min (Int.tdiv st.avg st.avgCount) st.max)]
     else []) ++
    [Event.printf (Output.summary p.count st.success (lossPercent st.success p.count) time)]

/-! ## Batch mode, in the words of the specification -/

/-- A target passes validation: none of the five checks fails. -/
def Accepted (server : String) (count : Int) (proto : String) : Prop :=
  ¬ EmptyTarget server ∧ ¬ MalformedTarget server ∧ ¬ InvalidCount count ∧
    ¬ InvalidPort server ∧ ¬ InvalidProtocol proto

/-- The session for a line of the input file and a TLS variant: the trimmed line
split into host and port, the other fields from the command line. -/
def pingerOf (args : Args) (line : String) (tls : Bool) : StratumPinger :=
  { login := args.login, pass := args.pass, count := args.count, ipv6 := args.v6,
    host := (strings.Split (strings.TrimSpace line) ':').getD 0 "",
    port := (strings.Split (strings.TrimSpace line) ':').getD 1 "",
    addr := none, proto := args.proto, tls := tls }

/-- The text of a file with the given lines, each ended by a newline, the last
one only if `trailing`. -/
def fileText (lines : List String) (trailing : Bool) : List Char :=
  if trailing then lines.flatMap fun l => l.toList ++ ['\n']
  else (lines.flatMap fun l => l.toList ++ ['\n']).dropLast

/-- The world after the two sessions of a line whose target passes
validation. -/
def runLine (env : Env) (args : Args) (w : World) (line : String) : World :=
  (StratumPing env (strings.TrimSpace line) args.login args.pass args.count args.v6 args.proto
    true
    (StratumPing env (strings.TrimSpace line) args.login args.pass args.count args.v6
      args.proto false w).2).2

/-- The world after the sessions of several lines, in order. -/
def runLines (env : Env) (args : Args) (w : World) (lines : List String) : World :=
  lines.foldl (runLine env args) w

/-! ## Sample environments and inputs -/

/-- An environment in which no name resolves and no connection opens. -/
def Env.offline : Env :=
  { resolveIPAddr := fun _ => .error "no such host"
    attempt := fun _ => .dialError "connection refused"
    since := fun _ => 0 }

/-- An environment in which names resolve and connections open; the first
attempt fails while sending, the second while reading, the third is answered
after 7 ms, the fourth after 4 ms, and later ones after 5 ms. -/
def Env.flaky : Env :=
  { resolveIPAddr := fun _ => .ok { ip := "192.0.2.1", zone := "" }
    attempt := fun k =>
      match k with
      | 0 => .encodeError "broken pipe"
      | 1 => .readError "i/o timeout"
      | 2 => .reply 7000000
      | 3 => .reply 4000000
      | _ => .reply 5000000
    since := fun _ => 4 * Second }

/-- A batch command line: one attempt per session, the default protocol. -/
def sampleArgs : Args :=
  { login := "wallet", pass := "x", count := 1, v6 := false, proto := "stratum2",
    tls := false, inputFile := "pools.txt", server := "" }

/-- An environment in which names resolve and the first 29 attempts are
answered after 5 ms, the later ones time out. -/
def Env.lossy : Env :=
  { resolveIPAddr := fun _ => .ok { ip := "192.0.2.1", zone := "" }
    attempt := fun k => if k < 29 then .reply 5000000 else .readError "i/o timeout"
    since := fun _ => 100 * Second }

/-- A pinger with a count of 100. -/
def centuryPinger : StratumPinger :=
  { login := "wallet", pass := "x", count := 100, ipv6 := false, host := "pool.example",
    port := "4444", addr := none, proto := "stratum2", tls := false }

/-- A pinger as `StratumPing` builds it for `pool.example:4444`. -/
def samplePinger : StratumPinger :=
  { login := "wallet", pass := "x", count := 4, ipv6 := false, host := "pool.example",
    port := "4444", addr := none, proto := "stratum2", tls := false }

/-- The pinger `StratumPing` builds for `pool.example:4444` with the protocol
`stratum1` and TLS. -/
def legacyPinger : StratumPinger :=
  { login := "wallet", pass := "x", count := 5, ipv6 := false, host := "pool.example",
    port := "4444", addr := none, proto := "stratum1", tls := true }

/-- The address `Env.flaky` resolves to. -/
def sampleAddr : IPAddr := { ip := "192.0.2.1", zone := "" }

/-! ## Validation -/

theorem string_length_eq_zero (s : String) : s.length = 0 ↔ s = "" := by
  constructor
  · intro h
    have h1 : s.data = [] := List.length_eq_zero.mp h
    exact String.ext h1
  · rintro rfl
    rfl

theorem portRejected_iff (r : Except strconv.NumError Int) :
    portRejected r = true ↔ ¬ ∃ n : Int, r = .ok n ∧ 0 < n ∧ n < 65536 := by
  cases r with
  | error e => simp [portRejected]
  | ok n =>
    simp only [portRejected, Bool.or_eq_true, decide_eq_true_eq, Except.ok.injEq,
      exists_eq_left', not_and, not_lt]
    constructor
    · rintro (h | h)
      · intro h1; omega
      · intro _; exact h
    · intro h
      by_cases h0 : n ≤ 0
      · exact Or.inl h0
      · exact Or.inr (h (by omega))

theorem newPinger_cases (server login pass : String) (count : Int) (ipv6 : Bool)
    (proto : String) (tls : Bool) :
    (EmptyTarget server ∧
      newPinger server login pass count ipv6 proto tls = .error errEmptyTarget) ∨
    (¬ EmptyTarget server ∧ MalformedTarget server ∧
      newPinger server login pass count ipv6 proto tls = .error errMalformedTarget) ∨
    (¬ EmptyTarget server ∧ ¬ MalformedTarget server ∧ InvalidCount count ∧
      newPinger server login pass count ipv6 proto tls = .error errInvalidCount) ∨
    (¬ EmptyTarget server ∧ ¬ MalformedTarget server ∧ ¬ InvalidCount count ∧
      InvalidPort server ∧
      newPinger server login pass count ipv6 proto tls = .error errInvalidPort) ∨
    (¬ EmptyTarget server ∧ ¬ MalformedTarget server ∧ ¬ InvalidCount count ∧
      ¬ InvalidPort server ∧ InvalidProtocol proto ∧
      newPinger server login pass count ipv6 proto tls = .error errInvalidProtocol) ∨
    (¬ EmptyTarget server ∧ ¬ MalformedTarget server ∧ ¬ InvalidCount count ∧
      ¬ InvalidPort server ∧ ¬ InvalidProtocol proto ∧
      newPinger server login pass count ipv6 proto tls =
        .ok { login := login, pass := pass, count := count,
              host := (strings.Split server ':').getD 0 "",
              port := (strings.Split server ':').getD 1 "",
              ipv6 := ipv6, proto := proto, tls := tls, addr := none }) := by
  unfold newPinger
  by_cases h1 : server.length = 0
  · left
    exact ⟨(string_length_eq_zero server).mp h1, by simp [h1]⟩
  have n1 : ¬ EmptyTarget server := fun h => h1 ((string_length_eq_zero server).mpr h)
  right
  by_cases h2 : (strings.Split server ':').length ≠ 2
  · left
    exact ⟨n1, h2, by simp [h1, h2]⟩
  have n2 : ¬ MalformedTarget server := h2
  right
  by_cases h3 : count ≤ 0 ∨ count > 20000
  · left
    exact ⟨n1, n2, h3, by simp only [h1, h2, h3]; simp⟩
  have n3 : ¬ InvalidCount count := h3
  right
  by_cases h4 : portRejected (strconv.ParseInt ((strings.Split server ':').getD 1 "")) = true
  · left
    exact ⟨n1, n2, n3, (portRejected_iff _).mp h4, by simp only [h1, h2, h3, h4]; simp⟩
  have n4 : ¬ InvalidPort server := fun h => h4 ((portRejected_iff _).mpr h)
  right
  by_cases h5 : proto = "stratum1" ∨ proto = "stratum2"
  · right
    refine ⟨n1, n2, n3, n4, ?_, by simp only [h1, h2, h3, h4, h5]; simp⟩
    rintro ⟨a, b⟩
    rcases h5 with h | h
    · exact a h
    · exact b h
  · left
    refine ⟨n1, n2, n3, n4, ?_, by simp only [h1, h2, h3, h4, h5]; simp⟩
    exact ⟨fun h => h5 (Or.inl h), fun h => h5 (Or.inr h)⟩

theorem StratumPing_error_iff (env : Env) (server login pass : String) (count : Int)
    (ipv6 : Bool) (proto : String) (tls : Bool) (w : World) (e : String) :
    (StratumPing env server login pass count ipv6 proto tls w).1 = some e ↔
      newPinger server login pass count ipv6 proto tls = .error e := by
  unfold StratumPing
  cases h : newPinger server login pass count ipv6 proto tls with
  | error err => simp
  | ok pinger =>
    simp only [reduceCtorEq, iff_false]
    rcases hd : Do env pinger w with ⟨_ | err, w1⟩ <;> simp

theorem StratumPing_world_of_error (env : Env) (server login pass : String) (count : Int)
    (ipv6 : Bool) (proto : String) (tls : Bool) (w : World) (e : String)
    (h : newPinger server login pass count ipv6 proto tls = .error e) :
    StratumPing env server login pass count ipv6 proto tls w = (some e, w) := by
  simp [StratumPing, h]

/-- C1: the validation of `StratumPing` is decided by the first failing check,
in the order empty target, malformed target, invalid count, invalid port, invalid
protocol: each error is returned exactly when the earlier checks pass and its own
check fails (the error text is the quoted message followed by two newlines); a
pinger is constructed exactly when all five checks pass; `StratumPing` returns
exactly the validation error; and `bad` gives the malformed-target error,
`host:99999` the invalid-port error and `host:80` with protocol `ftp` the
invalid-protocol error whenever the count is valid. -/
theorem validation_first_failing_check (env : Env) (server login pass : String)
    (count : Int) (ipv6 : Bool) (proto : String) (tls : Bool) (w : World) :
    (newPinger server login pass count ipv6 proto tls =
        .error "Stratum server cannot be empty\n\n" ↔ EmptyTarget server) ∧
    (newPinger server login pass count ipv6 proto tls =
        .error "Invalid host/port specified\n\n" ↔
      ¬ EmptyTarget server ∧ MalformedTarget server) ∧
    (newPinger server login pass count ipv6 proto tls =
        .error "Invalid count specified\n\n" ↔
      ¬ EmptyTarget server ∧ ¬ MalformedTarget server ∧ InvalidCount count) ∧
    (newPinger server login pass count ipv6 proto tls =
        .error "Invalid port specified\n\n" ↔
      ¬ EmptyTarget server ∧ ¬ MalformedTarget server ∧ ¬ InvalidCount count ∧
        InvalidPort server) ∧
    (newPinger server login pass count ipv6 proto tls =
        .error "Invalid stratum type specified\n\n" ↔
      ¬ EmptyTarget server ∧ ¬ MalformedTarget server ∧ ¬ InvalidCount count ∧
        ¬ InvalidPort server ∧ InvalidProtocol proto) ∧
    ((∃ p, newPinger server login pass count ipv6 proto tls = .ok p) ↔
      ¬ EmptyTarget server ∧ ¬ MalformedTarget server ∧ ¬ InvalidCount count ∧
        ¬ InvalidPort server ∧ ¬ InvalidProtocol proto) ∧
    (∀ e, (StratumPing env server login pass count ipv6 proto tls w).1 = some e ↔
      newPinger server login pass count ipv6 proto tls = .error e) ∧
    newPinger "bad" login pass count ipv6 proto tls = .error errMalformedTarget ∧
    newPinger "host:99999" login pass count ipv6 proto tls =
      .error (if count ≤ 0 ∨ count > 20000 then errInvalidCount else errInvalidPort) ∧
    newPinger "host:80" login pass count ipv6 "ftp" tls =
      .error (if count ≤ 0 ∨ count > 20000 then errInvalidCount else errInvalidProtocol) := by
  refine ⟨?_, ?_, ?_, ?_, ?_, ?_, ?_, ?_, ?_, ?_⟩
  on_goal 7 => exact fun e => StratumPing_error_iff env server login pass count ipv6 proto tls w e
  on_goal 7 =>
    have h1 : ("bad" : String).length = 3 := by decide
    have h2 : strings.Split "bad" ':' = ["bad"] := by decide
    simp [newPinger, h1, h2, errMalformedTarget]
  on_goal 7 =>
    have h1 : ("host:99999" : String).length = 10 := by decide
    have h2 : strings.Split "host:99999" ':' = ["host", "99999"] := by decide
    have h3 : portRejected (strconv.ParseInt "99999") = true := by decide
    by_cases hc : count ≤ 0 ∨ count > 20000
    · simp only [newPinger, h1, h2, hc]; simp
    · simp only [newPinger, h1, h2, hc]; simp [h3]
  on_goal 7 =>
    have h1 : ("host:80" : String).length = 7 := by decide
    have h2 : strings.Split "host:80" ':' = ["host", "80"] := by decide
    have h3 : portRejected (strconv.ParseInt "80") = false := by decide
    by_cases hc : count ≤ 0 ∨ count > 20000
    · simp only [newPinger, h1, h2, hc]; simp
    · simp only [newPinger, h1, h2, hc]; simp [h3]
  all_goals
    rcases newPinger_cases server login pass count ipv6 proto tls with
      ⟨a, hr⟩ | ⟨a, b, hr⟩ | ⟨a, b, c, hr⟩ | ⟨a, b, c, d, hr⟩ | ⟨a, b, c, d, e, hr⟩ |
      ⟨a, b, c, d, e, hr⟩ <;>
    simp [hr, errEmptyTarget, errMalformedTarget, errInvalidCount, errInvalidPort,
      errInvalidProtocol, *]

/-- C2 (counterexample): with the count `0` and the empty target, `StratumPing`
fails with the empty-target error, not with the invalid-count error. -/
theorem invalid_count_not_first_counterexample :
    InvalidCount 0 ∧
    (StratumPing Env.offline "" "wallet" "x" 0 false "stratum2" false World.init).1 =
      some "Stratum server cannot be empty\n\n" ∧
    (StratumPing Env.offline "" "wallet" "x" 0 false "stratum2" false World.init).1 ≠
      some "Invalid count specified\n\n" :=
  ⟨Or.inl (le_refl 0), by decide, by decide⟩

/-- C2 (amended): for every count outside `(0, 20000]` and every target and
protocol, `StratumPing` fails and leaves the world as it was (no resolver call, no
attempt, no event); the error is the invalid-count error exactly when the target
is non-empty and splits on `:` into two parts, the empty-target error for an empty
target and the malformed-target error for a non-empty target that does not split
into two parts. -/
theorem invalid_count_rejected (env : Env) (server login pass : String) (count : Int)
    (ipv6 : Bool) (proto : String) (tls : Bool) (w : World)
    (h : count ≤ 0 ∨ count > 20000) :
    ∃ e, StratumPing env server login pass count ipv6 proto tls w = (some e, w) ∧
      (e = errInvalidCount ↔ ¬ EmptyTarget server ∧ ¬ MalformedTarget server) ∧
      (e = errEmptyTarget ↔ EmptyTarget server) ∧
      (e = errMalformedTarget ↔ ¬ EmptyTarget server ∧ MalformedTarget server) := by
  have hc : InvalidCount count := h
  rcases newPinger_cases server login pass count ipv6 proto tls with
    ⟨a, hr⟩ | ⟨a, b, hr⟩ | ⟨a, b, c, hr⟩ | ⟨a, b, c, d, hr⟩ | ⟨a, b, c, d, e, hr⟩ |
    ⟨a, b, c, d, e, hr⟩
  · exact ⟨_, StratumPing_world_of_error env _ _ _ _ _ _ _ w _ hr,
      by simp [errInvalidCount, errEmptyTarget, a],
      by simp [a], by simp [errMalformedTarget, errEmptyTarget, a]⟩
  · exact ⟨_, StratumPing_world_of_error env _ _ _ _ _ _ _ w _ hr,
      by simp [errInvalidCount, errMalformedTarget, a, b],
      by simp [errMalformedTarget, errEmptyTarget, a], by simp [a, b]⟩
  · exact ⟨_, StratumPing_world_of_error env _ _ _ _ _ _ _ w _ hr,
      by simp [a, b],
      by simp [errInvalidCount, errEmptyTarget, a],
      by simp [errInvalidCount, errMalformedTarget, a, b]⟩
  · exact absurd hc c
  · exact absurd hc c
  · exact absurd hc c

/-- C2 (amended), at the count `20001` and the target `host:80`. -/
theorem invalid_count_rejected_witness :
    ((20001 : Int) ≤ 0 ∨ (20001 : Int) > 20000) ∧
    ∃ e, StratumPing Env.offline "host:80" "wallet" "x" 20001 false "stratum2" false
        World.init = (some e, World.init) ∧
      (e = errInvalidCount ↔ ¬ EmptyTarget "host:80" ∧ ¬ MalformedTarget "host:80") ∧
      (e = errEmptyTarget ↔ EmptyTarget "host:80") ∧
      (e = errMalformedTarget ↔ ¬ EmptyTarget "host:80" ∧ MalformedTarget "host:80") :=
  ⟨by decide,
    invalid_count_rejected Env.offline "host:80" "wallet" "x" 20001 false "stratum2" false
      World.init (by decide)⟩

/-! ## Single attempts -/

theorem DoPing_attempts (env : Env) (p : StratumPinger) (a : IPAddr) (w : World) :
    (DoPing env p a w).2.attempts = w.attempts + 1 ∧
    (DoPing env p a w).2.resolves = w.resolves := by
  unfold DoPing
  cases env.attempt w.attempts <;> simp [World.emit]

theorem DoPing_result (env : Env) (p : StratumPinger) (a : IPAddr) (w : World) :
    (DoPing env p a w).1 =
      match env.attempt w.attempts with
      | .dialError err => .error err
      | .encodeError err => .error err
      | .readError err => .error err
      | .reply d => .ok d := by
  unfold DoPing
  cases env.attempt w.attempts <;> simp

theorem DoPing_views (env : Env) (p : StratumPinger) (a : IPAddr) (w : World) :
    steps (DoPing env p a w).2.trace = steps w.trace ++ [Step.attempt] ∧
    sessions (DoPing env p a w).2.trace = sessions w.trace ∧
    timings (DoPing env p a w).2.trace = timings w.trace ∧
    summaries (DoPing env p a w).2.trace = summaries w.trace := by
  unfold DoPing
  cases env.attempt w.attempts <;>
    simp [World.emit, steps, stepOf, sessions, timings, summaries, List.filterMap_append]

theorem DoPing_encoded (env : Env) (p : StratumPinger) (a : IPAddr) (w : World) :
    encoded (DoPing env p a w).2.trace =
      encoded w.trace ++
        (match env.attempt w.attempts with
         | .dialError _ => []
         | _ => [request p]) := by
  unfold DoPing
  cases env.attempt w.attempts <;> simp [World.emit, encoded, List.filterMap_append]

theorem request_stratum1 (p : StratumPinger) (h : p.proto = "stratum1") :
    request p = some [("id", .number 1), ("jsonrpc", .text "2.0"),
      ("method", .text "eth_submitLogin"), ("params", .texts [p.login, p.pass])] := by
  simp only [request, h, if_true]

theorem request_stratum2 (p : StratumPinger) (h : p.proto = "stratum2") :
    request p = some [("id", .number 1), ("method", .text "mining.subscribe"),
      ("params", .texts ["stratum-ping/1.0.0", "EthereumStratum/1.0.0"])] := by
  have h1 : ¬ ("stratum2" : String) = "stratum1" := by decide
  simp only [request, h, h1, if_false, if_true]

/-- C6: for every pinger that the validation of `StratumPing` accepts, the
request `DoPing` builds is never the nil map and has one of two shapes: for
`stratum1` the fields are exactly `id`, `jsonrpc`, `method`, `params` with
`id = 1`, `jsonrpc = "2.0"`, `method = "eth_submitLogin"` and
`params = [login, password]`; for `stratum2` they are exactly `id`, `method`,
`params` with `id = 1`, `method = "mining.subscribe"` and
`params = ["stratum-ping/1.0.0", "EthereumStratum/1.0.0"]`; and an attempt
hands exactly that request to the encoder, once, whenever its dial succeeds (the
request is sent, whether or not sending or reading then fails), and nothing when
the dial fails. -/
theorem request_shape (server login pass : String) (count : Int) (ipv6 : Bool)
    (proto : String) (tls : Bool) (p : StratumPinger)
    (h : newPinger server login pass count ipv6 proto tls = .ok p) :
    (∃ req, request p = some req ∧
      ((proto = "stratum1" ∧
          req.map Prod.fst = ["id", "jsonrpc", "method", "params"] ∧
          req.lookup "id" = some (.number 1) ∧
          req.lookup "jsonrpc" = some (.text "2.0") ∧
          req.lookup "method" = some (.text "eth_submitLogin") ∧
          req.lookup "params" = some (.texts [login, pass])) ∨
       (proto = "stratum2" ∧
          req.map Prod.fst = ["id", "method", "params"] ∧
          req.lookup "id" = some (.number 1) ∧
          req.lookup "method" = some (.text "mining.subscribe") ∧
          req.lookup "params" =
            some (.texts ["stratum-ping/1.0.0", "EthereumStratum/1.0.0"])))) ∧
    ∀ (env : Env) (a : IPAddr) (w : World),
      encoded (DoPing env p a w).2.trace =
        encoded w.trace ++
          (match env.attempt w.attempts with
           | .dialError _ => []
           | _ => [request p]) := by
  constructor
  · rcases newPinger_cases server login pass count ipv6 proto tls with
      ⟨_, hr⟩ | ⟨_, _, hr⟩ | ⟨_, _, _, hr⟩ | ⟨_, _, _, _, hr⟩ | ⟨_, _, _, _, _, hr⟩ |
      ⟨_, _, _, _, e, hr⟩
    any_goals (rw [hr] at h; cases h)
    by_cases h1 : proto = "stratum1"
    · subst h1
      have hq := request_stratum1 _ (rfl : StratumPinger.proto
        { login := login, pass := pass, count := count, ipv6 := ipv6,
          host := (strings.Split server ':').getD 0 "",
          port := (strings.Split server ':').getD 1 "", addr := none,
          proto := "stratum1", tls := tls } = "stratum1")
      exact ⟨_, hq, Or.inl ⟨rfl, rfl, rfl, rfl, rfl, rfl⟩⟩
    · have h2 : proto = "stratum2" := by
        by_contra h2
        exact e ⟨h1, h2⟩
      subst h2
      have hq := request_stratum2 _ (rfl : StratumPinger.proto
        { login := login, pass := pass, count := count, ipv6 := ipv6,
          host := (strings.Split server ':').getD 0 "",
          port := (strings.Split server ':').getD 1 "", addr := none,
          proto := "stratum2", tls := tls } = "stratum2")
      exact ⟨_, hq, Or.inr ⟨rfl, rfl, rfl, rfl, rfl⟩⟩
  · intro env a w
    exact DoPing_encoded env p a w

/-! ## The attempt loop -/

theorem replies_zero (env : Env) (start : Nat) : replies env start 0 = [] := rfl

theorem replies_succ (env : Env) (start n : Nat) :
    replies env start (n + 1) =
      (env.attempt start).elapsed?.toList ++ replies env (start + 1) n := by
  unfold replies
  rw [List.range_succ_eq_map, List.filterMap_cons, List.filterMap_map]
  have hf : ((fun k => (env.attempt (start + k)).elapsed?) ∘ Nat.succ) =
      fun k => (env.attempt (start + 1 + k)).elapsed? := by
    funext k
    simp only [Function.comp, Nat.succ_eq_add_one]
    congr 2
    omega
  rw [hf]
  cases h : (env.attempt (start + 0)).elapsed? with
  | none =>
    rw [Nat.add_zero] at h
    simp [h]
  | some d =>
    rw [Nat.add_zero] at h
    simp [h]

theorem range_flatMap_succ {β : Type} (f : Nat → List β) (n : Nat) :
    (List.range (n + 1)).flatMap f = f 0 ++ (List.range n).flatMap fun k => f (k + 1) := by
  rw [List.range_succ_eq_map, List.flatMap_cons, List.flatMap_map]

/-- What an attempt loop of `n` iterations does to the statistics, the counters
and the views of the trace. -/
theorem doLoop_spec (env : Env) (p : StratumPinger) (a : IPAddr) :
    ∀ (n : Nat) (i : Int) (st : Stats) (w : World),
      (doLoop env p a n i st w).1 = (replies env w.attempts n).foldl Stats.record st ∧
      (doLoop env p a n i st w).2.attempts = w.attempts + n ∧
      (doLoop env p a n i st w).2.resolves = w.resolves ∧
      steps (doLoop env p a n i st w).2.trace =
        steps w.trace ++
          (List.range n).flatMap
            (fun k => [Step.attempt, Step.report (i + (k : Int)), Step.pause Second]) ∧
      sessions (doLoop env p a n i st w).2.trace = sessions w.trace ∧
      timings (doLoop env p a n i st w).2.trace = timings w.trace ∧
      summaries (doLoop env p a n i st w).2.trace = summaries w.trace := by
  intro n
  induction n with
  | zero =>
    intro i st w
    simp [doLoop, replies_zero]
  | succ n ih =>
    intro i st w
    have hr := DoPing_result env p a w
    have hv := DoPing_views env p a w
    have ha := DoPing_attempts env p a w
    rw [replies_succ, range_flatMap_succ]
    have hshift : (fun k : Nat =>
          [Step.attempt, Step.report (i + ((k + 1 : Nat) : Int)), Step.pause Second]) =
        fun k : Nat => [Step.attempt, Step.report (i + 1 + (k : Int)), Step.pause Second] := by
      funext k
      congr 2
      push_cast
      ring_nf
    rw [hshift]
    unfold doLoop
    rcases hD : DoPing env p a w with ⟨r, w1⟩
    rw [hD] at hr hv ha
    simp only at hr hv ha
    cases r with
    | error err =>
      have he : (env.attempt w.attempts).elapsed? = none := by
        cases ho : env.attempt w.attempts <;> simp [ho, PingOutcome.elapsed?] at hr ⊢
      obtain ⟨h1, h2, h3, h4, h5, h6, h7⟩ := ih (i + 1) st
        ((w1.emit (.printf (.attemptError p.host a.String i err))).emit (.sleep (1 * Second)))
      simp only [h1, h2, h3, h4, h5, h6, h7, he]
      simp [World.emit, steps, stepOf, sessions, timings, summaries, List.filterMap_append,
        ha.1, ha.2, Second] at hv ⊢
      refine ⟨by omega, ?_, ?_, ?_, ?_⟩
      · simp [steps, stepOf, hv.1]
      · exact hv.2.1
      · exact hv.2.2.1
      · exact hv.2.2.2
    | ok d =>
      have he : (env.attempt w.attempts).elapsed? = some d := by
        cases ho : env.attempt w.attempts <;> simp [ho, PingOutcome.elapsed?] at hr ⊢
        exact hr.symm
      obtain ⟨h1, h2, h3, h4, h5, h6, h7⟩ := ih (i + 1) (st.record d)
        ((w1.emit (.printf (.attemptTime p.host a.String i d))).emit (.sleep (1 * Second)))
      simp only [h1, h2, h3, h4, h5, h6, h7, he]
      simp [World.emit, steps, stepOf, sessions, timings, summaries, List.filterMap_append,
        ha.1, ha.2, Second] at hv ⊢
      refine ⟨by omega, ?_, ?_, ?_, ?_⟩
      · simp [steps, stepOf, hv.1]
      · exact hv.2.1
      · exact hv.2.2.1
      · exact hv.2.2.2

/-! ## `Do` -/

theorem Do_eq (env : Env) (p : StratumPinger) (w : World) (a : IPAddr)
    (hres : env.resolveIPAddr w.resolves = .ok a) :
    Do env p w =
      (none,
        { (doLoop env p a p.count.toNat 0 Stats.init (worldAtLoop p a w)).2 with
          trace := (doLoop env p a p.count.toNat 0 Stats.init (worldAtLoop p a w)).2.trace ++
            closing p (doLoop env p a p.count.toNat 0 Stats.init (worldAtLoop p a w)).1
              (env.since w.resolves) }) := by
  have hw : ({ (w.emit (.enterDo p)).emit
        (.resolveIPAddr (if p.ipv6 then "ip6" else "ip4") p.host) with
        resolves := w.resolves + 1 } : World).emit
      (.printf (.banner p.host a.String (if p.tls then " TLS" else "") p.port
        (if p.proto = "stratum1" then " with credentials: " ++ p.login ++ ":" ++ p.pass
         else ""))) = worldAtLoop p a w := by
    simp [World.emit, worldAtLoop]
  unfold Do Resolve
  simp only [World.emit] at hw ⊢
  simp only [hres, hw]
  rcases doLoop env p a p.count.toNat 0 Stats.init (worldAtLoop p a w) with ⟨st, w3⟩
  by_cases hs : st.success > 0 <;> simp [closing, hs]

/-- What a session whose name resolves does to the counters and the views of
the trace. -/
theorem Do_resolved (env : Env) (p : StratumPinger) (w : World) (a : IPAddr)
    (hres : env.resolveIPAddr w.resolves = .ok a) :
    (Do env p w).1 = none ∧
    (Do env p w).2.attempts = w.attempts + p.count.toNat ∧
    (Do env p w).2.resolves = w.resolves + 1 ∧
    steps (Do env p w).2.trace =
      steps w.trace ++
        (List.range p.count.toNat).flatMap
          (fun k => [Step.attempt, Step.report (k : Int), Step.pause Second]) ∧
    sessions (Do env p w).2.trace = sessions w.trace ++ [p] ∧
    timings (Do env p w).2.trace =
      timings w.trace ++
        (if ((replies env w.attempts p.count.toNat).foldl Stats.record Stats.init).success > 0
         then
          [(((replies env w.attempts p.count.toNat).foldl Stats.record Stats.init).min,
            Int.tdiv ((replies env w.attempts p.count.toNat).foldl Stats.record Stats.init).avg
              ((replies env w.attempts p.count.toNat).foldl Stats.record Stats.init).avgCount,
            ((replies env w.attempts p.count.toNat).foldl Stats.record Stats.init).max)]
         else []) ∧
    summaries (Do env p w).2.trace =
      summaries w.trace ++
        [(p.count,
          ((replies env w.attempts p.count.toNat).foldl Stats.record Stats.init).success,
          lossPercent
            ((replies env w.attempts p.count.toNat).foldl Stats.record Stats.init).success
            p.count)] := by
  rw [Do_eq env p w a hres]
  obtain ⟨h1, h2, h3, h4, h5, h6, h7⟩ :=
    doLoop_spec env p a p.count.toNat 0 Stats.init (worldAtLoop p a w)
  have e1 : (worldAtLoop p a w).attempts = w.attempts := rfl
  have e2 : (worldAtLoop p a w).resolves = w.resolves + 1 := rfl
  have e3 : steps (worldAtLoop p a w).trace = steps w.trace := by
    simp [worldAtLoop, steps, stepOf, List.filterMap_append]
  have e4 : sessions (worldAtLoop p a w).trace = sessions w.trace ++ [p] := by
    simp [worldAtLoop, sessions, List.filterMap_append]
  have e5 : timings (worldAtLoop p a w).trace = timings w.trace := by
    simp [worldAtLoop, timings, List.filterMap_append]
  have e6 : summaries (worldAtLoop p a w).trace = summaries w.trace := by
    simp [worldAtLoop, summaries, List.filterMap_append]
  simp only [zero_add, e1, e2, e3, e4, e5, e6] at h1 h2 h3 h4 h5 h6 h7
  rw [← h1]
  generalize doLoop env p a p.count.toNat 0 Stats.init (worldAtLoop p a w) = r at *
  rcases r with ⟨st, w3⟩
  simp only at h2 h3 h4 h5 h6 h7 ⊢
  refine ⟨trivial, h2, h3, ?_, ?_, ?_, ?_⟩
  · have : steps (closing p st (env.since w.resolves)) = [] := by
      by_cases hs : st.success > 0 <;> simp [closing, hs, steps, stepOf]
    rw [steps, List.filterMap_append]
    rw [steps] at this h4
    rw [this, h4, List.append_nil]
  · have : sessions (closing p st (env.since w.resolves)) = [] := by
      by_cases hs : st.success > 0 <;> simp [closing, hs, sessions]
    rw [sessions, List.filterMap_append]
    rw [sessions] at this h5
    rw [this, h5, List.append_nil]
  · have : timings (closing p st (env.since w.resolves)) =
        if st.success > 0 then [(st.min, Int.tdiv st.avg st.avgCount, st.max)] else [] := by
      by_cases hs : st.success > 0 <;> simp [closing, hs, timings]
    rw [timings, List.filterMap_append]
    rw [timings] at this h6
    rw [this, h6]
  · have : summaries (closing p st (env.since w.resolves)) =
        [(p.count, st.success, lossPercent st.success p.count)] := by
      by_cases hs : st.success > 0 <;> simp [closing, hs, summaries]
    rw [summaries, List.filterMap_append]
    rw [summaries] at this h7
    rw [this, h7]

theorem Do_unresolved (env : Env) (p : StratumPinger) (w : World) (err : String)
    (hres : env.resolveIPAddr w.resolves = .error err) :
    (Do env p w).1 = some ("Failed to resolve host name: " ++ err) ∧
    (Do env p w).2.attempts = w.attempts ∧
    (Do env p w).2.resolves = w.resolves + 1 ∧
    steps (Do env p w).2.trace = steps w.trace ∧
    sessions (Do env p w).2.trace = sessions w.trace ++ [p] := by
  unfold Do Resolve
  simp [World.emit, hres, steps, stepOf, sessions, List.filterMap_append]

/-! ## The running statistics -/

theorem wrap64_of_range (x : Int) (h1 : -(2 ^ 63) ≤ x) (h2 : x < 2 ^ 63) : wrap64 x = x := by
  unfold wrap64
  rw [Int.emod_eq_of_lt (by omega) (by omega)]
  omega

theorem foldl_record_counts (L : List Int) :
    ∀ st : Stats,
      (L.foldl Stats.record st).success = st.success + L.length ∧
      (L.foldl Stats.record st).avgCount = st.avgCount + L.length := by
  induction L with
  | nil => intro st; simp
  | cons d L ih =>
    intro st
    obtain ⟨h1, h2⟩ := ih (st.record d)
    rw [List.foldl_cons, h1, h2]
    simp only [Stats.record, List.length_cons]
    push_cast
    constructor <;> ring

theorem foldl_record_avg (L : List Int) :
    ∀ st : Stats, (∀ x ∈ L, 0 ≤ x ∧ x < Hour) → 0 ≤ st.avg →
      st.avg + L.length * Hour < 2 ^ 63 →
      (L.foldl Stats.record st).avg = st.avg + L.sum := by
  induction L with
  | nil => intro st _ _ _; simp
  | cons d L ih =>
    intro st hL h0 hb
    have hd := hL d (List.mem_cons_self d L)
    have hH : Hour = 3600000000000 := by norm_num [Hour, Second]
    simp only [List.length_cons, Nat.cast_add, Nat.cast_one] at hb
    rw [hH] at hb hd
    have hw : wrap64 (st.avg + d) = st.avg + d := by
      apply wrap64_of_range <;> omega
    have := ih (st.record d) (fun x hx => hL x (List.mem_cons_of_mem d hx))
      (by simp only [Stats.record, hw]; omega)
      (by simp only [Stats.record, hw]; rw [hH]; omega)
    rw [List.foldl_cons, this, List.sum_cons]
    simp only [Stats.record, hw]
    ring

theorem foldl_record_min (L : List Int) :
    ∀ st : Stats,
      (L.foldl Stats.record st).min ≤ st.min ∧
      (∀ x ∈ L, (L.foldl Stats.record st).min ≤ x) ∧
      ((L.foldl Stats.record st).min = st.min ∨ (L.foldl Stats.record st).min ∈ L) := by
  induction L with
  | nil => intro st; simp
  | cons d L ih =>
    intro st
    obtain ⟨h1, h2, h3⟩ := ih (st.record d)
    have hm : (st.record d).min ≤ st.min ∧ (st.record d).min ≤ d ∧
        ((st.record d).min = st.min ∨ (st.record d).min = d) := by
      simp only [Stats.record]
      split_ifs with h
      · exact ⟨le_of_lt h, le_refl d, Or.inr rfl⟩
      · exact ⟨le_refl _, not_lt.mp h, Or.inl rfl⟩
    simp only [List.foldl_cons, List.mem_cons]
    refine ⟨le_trans h1 hm.1, ?_, ?_⟩
    · rintro x (rfl | hx)
      · exact le_trans h1 hm.2.1
      · exact h2 x hx
    · rcases h3 with h | h
      · rcases hm.2.2 with h' | h'
        · exact Or.inl (h.trans h')
        · exact Or.inr (Or.inl (h.trans h'))
      · exact Or.inr (Or.inr h)

theorem foldl_record_max (L : List Int) :
    ∀ st : Stats,
      st.max ≤ (L.foldl Stats.record st).max ∧
      (∀ x ∈ L, x ≤ (L.foldl Stats.record st).max) ∧
      ((L.foldl Stats.record st).max = st.max ∨ (L.foldl Stats.record st).max ∈ L) := by
  induction L with
  | nil => intro st; simp
  | cons d L ih =>
    intro st
    obtain ⟨h1, h2, h3⟩ := ih (st.record d)
    have hm : st.max ≤ (st.record d).max ∧ d ≤ (st.record d).max ∧
        ((st.record d).max = st.max ∨ (st.record d).max = d) := by
      simp only [Stats.record]
      split_ifs with h
      · exact ⟨le_of_lt h, le_refl d, Or.inr rfl⟩
      · exact ⟨le_refl _, not_lt.mp h, Or.inl rfl⟩
    simp only [List.foldl_cons, List.mem_cons]
    refine ⟨le_trans hm.1 h1, ?_, ?_⟩
    · rintro x (rfl | hx)
      · exact le_trans hm.2.1 h1
      · exact h2 x hx
    · rcases h3 with h | h
      · rcases hm.2.2 with h' | h'
        · exact Or.inl (h.trans h')
        · exact Or.inr (Or.inl (h.trans h'))
      · exact Or.inr (Or.inr h)

theorem replies_length_le (env : Env) (start n : Nat) : (replies env start n).length ≤ n := by
  unfold replies
  exact (List.length_filterMap_le _ _).trans (by simp)

theorem mem_replies (env : Env) (start n : Nat) (d : Int) :
    d ∈ replies env start n ↔ ∃ k, k < n ∧ env.attempt (start + k) = .reply d := by
  unfold replies
  simp only [List.mem_filterMap, List.mem_range]
  constructor
  · rintro ⟨k, hk, h⟩
    refine ⟨k, hk, ?_⟩
    cases ho : env.attempt (start + k) <;> simp [ho, PingOutcome.elapsed?] at h
    rw [h]
  · rintro ⟨k, hk, h⟩
    exact ⟨k, hk, by simp [h, PingOutcome.elapsed?]⟩

/-! ## The attempt count and the summary -/

/-- C3: for every session with count `n` (any `n`, so every `n` in
`[1, 20000]`) whose name resolves, and whatever the outcomes of the attempts,
`Do` returns nil after exactly `n` calls of `DoPing`; the pacing of its trace is
`n` times an attempt, the line reporting it with sequence number `0, 1, ..., n-1`
in order, and one pause of one second (also after the last attempt); its summary
line has transmitted `n` and received the number of answered attempts, which is
at most `n`. -/
theorem Do_performs_count_attempts (env : Env) (p : StratumPinger) (w : World) (a : IPAddr)
    (n : Nat) (hcount : p.count = (n : Int))
    (hres : env.resolveIPAddr w.resolves = .ok a) :
    (Do env p w).1 = none ∧
    (Do env p w).2.attempts = w.attempts + n ∧
    steps (Do env p w).2.trace =
      steps w.trace ++
        (List.range n).flatMap
          (fun k => [Step.attempt, Step.report (k : Int), Step.pause 1000000000]) ∧
    summaries (Do env p w).2.trace =
      summaries w.trace ++
        [((n : Int), ((replies env w.attempts n).length : Int),
          lossPercent ((replies env w.attempts n).length : Int) (n : Int))] ∧
    (replies env w.attempts n).length ≤ n := by
  obtain ⟨h1, h2, _, h4, _, _, h7⟩ := Do_resolved env p w a hres
  have hn : p.count.toNat = n := by rw [hcount]; exact Int.toNat_natCast n
  rw [hn] at h2 h4 h7
  have hs := (foldl_record_counts (replies env w.attempts n) Stats.init).1
  have h0 : Stats.init.success = 0 := rfl
  rw [h0, zero_add] at hs
  rw [hs, hcount] at h7
  exact ⟨h1, h2, h4, h7, replies_length_le env w.attempts n⟩

/-- C3, for four attempts of which the last two are answered. -/
theorem Do_performs_count_attempts_witness :
    (samplePinger.count = ((4 : Nat) : Int) ∧
      Env.flaky.resolveIPAddr World.init.resolves = .ok sampleAddr) ∧
    ((Do Env.flaky samplePinger World.init).1 = none ∧
    (Do Env.flaky samplePinger World.init).2.attempts = World.init.attempts + 4 ∧
    steps (Do Env.flaky samplePinger World.init).2.trace =
      steps World.init.trace ++
        (List.range 4).flatMap
          (fun k => [Step.attempt, Step.report (k : Int), Step.pause 1000000000]) ∧
    summaries (Do Env.flaky samplePinger World.init).2.trace =
      summaries World.init.trace ++
        [(((4 : Nat) : Int), ((replies Env.flaky World.init.attempts 4).length : Int),
          lossPercent ((replies Env.flaky World.init.attempts 4).length : Int)
            ((4 : Nat) : Int))] ∧
    (replies Env.flaky World.init.attempts 4).length ≤ 4) :=
  ⟨⟨rfl, rfl⟩, Do_performs_count_attempts Env.flaky samplePinger World.init sampleAddr 4 rfl rfl⟩

/-- C10: for a session with count `n ≤ 20000` whose name resolves and whose
answered attempts all have an elapsed time in `[0, 1 hour)`: when no attempt is
answered `Do` prints no `min/avg/max` line; otherwise it prints exactly one,
whose `min` is the smallest and whose `max` is the largest elapsed time of the
answered attempts, and whose `avg` is their sum divided by their number with
truncation, so that `min ≤ avg ≤ max`.  Only answered attempts enter. -/
theorem Do_min_avg_max (env : Env) (p : StratumPinger) (w : World) (a : IPAddr) (n : Nat)
    (hcount : p.count = (n : Int)) (hn : n ≤ 20000)
    (hres : env.resolveIPAddr w.resolves = .ok a)
    (hrange : ∀ k d, k < n → env.attempt (w.attempts + k) = .reply d → 0 ≤ d ∧ d < Hour) :
    (replies env w.attempts n = [] ∧
      timings (Do env p w).2.trace = timings w.trace) ∨
    (∃ mn av mx, replies env w.attempts n ≠ [] ∧
      timings (Do env p w).2.trace = timings w.trace ++ [(mn, av, mx)] ∧
      mn ∈ replies env w.attempts n ∧ (∀ x ∈ replies env w.attempts n, mn ≤ x) ∧
      mx ∈ replies env w.attempts n ∧ (∀ x ∈ replies env w.attempts n, x ≤ mx) ∧
      av = Int.tdiv (replies env w.attempts n).sum (replies env w.attempts n).length ∧
      av = (replies env w.attempts n).sum / ((replies env w.attempts n).length : Int) ∧
      mn ≤ av ∧ av ≤ mx) := by
  obtain ⟨_, _, _, _, _, h6, _⟩ := Do_resolved env p w a hres
  have hpn : p.count.toNat = n := by rw [hcount]; exact Int.toNat_natCast n
  rw [hpn] at h6
  have hL : ∀ x ∈ replies env w.attempts n, 0 ≤ x ∧ x < Hour := by
    intro x hx
    obtain ⟨k, hk, h⟩ := (mem_replies env w.attempts n x).mp hx
    exact hrange k x hk h
  have hlen : (replies env w.attempts n).length ≤ 20000 :=
    (replies_length_le env w.attempts n).trans hn
  generalize replies env w.attempts n = L at h6 hL hlen ⊢
  have hH : Hour = 3600000000000 := by norm_num [Hour, Second]
  obtain ⟨c1, c2⟩ := foldl_record_counts L Stats.init
  have i1 : Stats.init.success = 0 := rfl
  have i2 : Stats.init.avgCount = 0 := rfl
  have i3 : Stats.init.avg = 0 := rfl
  have i4 : Stats.init.min = Hour := rfl
  have i5 : Stats.init.max = 0 := rfl
  rw [i1, zero_add] at c1
  rw [i2, zero_add] at c2
  have c3 := foldl_record_avg L Stats.init hL (by rw [i3]) (by rw [i3, hH]; omega)
  rw [i3, zero_add] at c3
  obtain ⟨_, m2, m3⟩ := foldl_record_min L Stats.init
  obtain ⟨_, x2, x3⟩ := foldl_record_max L Stats.init
  rw [i4] at m3
  rw [i5] at x3
  rw [c1, c2, c3] at h6
  cases L with
  | nil =>
    left
    exact ⟨rfl, by simpa using h6⟩
  | cons d L =>
    right
    have hpos : (0 : Int) < ((d :: L).length : Int) := by
      simp only [List.length_cons]; push_cast; omega
    rw [if_pos hpos] at h6
    have hsum0 : 0 ≤ (d :: L).sum := List.sum_nonneg fun x hx => (hL x hx).1
    have hmin : (List.foldl Stats.record Stats.init (d :: L)).min ∈ d :: L := by
      rcases m3 with h | h
      · have := m2 d (List.mem_cons_self d L)
        have := (hL d (List.mem_cons_self d L)).2
        omega
      · exact h
    have hmax : (List.foldl Stats.record Stats.init (d :: L)).max ∈ d :: L := by
      rcases x3 with h | h
      · have h1 := x2 d (List.mem_cons_self d L)
        have h2 := (hL d (List.mem_cons_self d L)).1
        have hd0 : d = 0 := by omega
        rw [h, ← hd0]
        exact List.mem_cons_self d L
      · exact h
    have hdiv : Int.tdiv (d :: L).sum ((d :: L).length : Int) =
        (d :: L).sum / ((d :: L).length : Int) :=
      Int.tdiv_eq_ediv hsum0 (le_of_lt hpos)
    have hlo : ((d :: L).length : Int) * (List.foldl Stats.record Stats.init (d :: L)).min ≤
        (d :: L).sum := by
      have := List.card_nsmul_le_sum (d :: L) _ m2
      rwa [nsmul_eq_mul] at this
    have hhi : (d :: L).sum ≤
        ((d :: L).length : Int) * (List.foldl Stats.record Stats.init (d :: L)).max := by
      have := List.sum_le_card_nsmul (d :: L) _ x2
      rwa [nsmul_eq_mul] at this
    refine ⟨_, _, _, List.cons_ne_nil d L, h6, hmin, m2, hmax, x2, rfl, hdiv, ?_, ?_⟩
    · rw [hdiv]
      exact Int.le_ediv_of_mul_le hpos (by rw [mul_comm]; exact hlo)
    · rw [hdiv]
      exact Int.ediv_le_of_le_mul hpos (by rw [mul_comm]; exact hhi)

/-- C10, for four attempts of which the last two are answered, after 7 ms and
after 4 ms. -/
theorem Do_min_avg_max_witness :
    (samplePinger.count = ((4 : Nat) : Int) ∧ 4 ≤ 20000 ∧
      Env.flaky.resolveIPAddr World.init.resolves = .ok sampleAddr ∧
      ∀ k d, k < 4 → Env.flaky.attempt (World.init.attempts + k) = .reply d →
        0 ≤ d ∧ d < Hour) ∧
    ((replies Env.flaky World.init.attempts 4 = [] ∧
      timings (Do Env.flaky samplePinger World.init).2.trace = timings World.init.trace) ∨
    (∃ mn av mx, replies Env.flaky World.init.attempts 4 ≠ [] ∧
      timings (Do Env.flaky samplePinger World.init).2.trace =
        timings World.init.trace ++ [(mn, av, mx)] ∧
      mn ∈ replies Env.flaky World.init.attempts 4 ∧
      (∀ x ∈ replies Env.flaky World.init.attempts 4, mn ≤ x) ∧
      mx ∈ replies Env.flaky World.init.attempts 4 ∧
      (∀ x ∈ replies Env.flaky World.init.attempts 4, x ≤ mx) ∧
      av = Int.tdiv (replies Env.flaky World.init.attempts 4).sum
        (replies Env.flaky World.init.attempts 4).length ∧
      av = (replies Env.flaky World.init.attempts 4).sum /
        ((replies Env.flaky World.init.attempts 4).length : Int) ∧
      mn ≤ av ∧ av ≤ mx)) := by
  have hr : ∀ k d, k < 4 → Env.flaky.attempt (World.init.attempts + k) = .reply d →
      0 ≤ d ∧ d < Hour := by
    intro k d hk h
    have hH : Hour = 3600000000000 := by norm_num [Hour, Second]
    have h0 : World.init.attempts = 0 := rfl
    rw [h0, Nat.zero_add] at h
    rw [hH]
    interval_cases k <;> simp [Env.flaky] at h <;> omega
  exact ⟨⟨rfl, by decide, rfl, hr⟩,
    Do_min_avg_max Env.flaky samplePinger World.init sampleAddr 4 rfl (by decide) rfl hr⟩

/-! ## Batch mode -/

theorem dropWhile_append_space (f : Char → Bool) (c : Char) (hc : f c = true) (l : List Char) :
    (l ++ [c]).dropWhile f = if l.dropWhile f = [] then [] else l.dropWhile f ++ [c] := by
  induction l with
  | nil => simp [List.dropWhile, hc]
  | cons x l ih =>
    by_cases hx : f x = true
    · simp only [List.cons_append, List.dropWhile_cons, hx, if_true]
      exact ih
    · simp [List.dropWhile_cons, hx]

theorem TrimSpace_newline (l : List Char) :
    strings.TrimSpace (String.mk (l ++ ['\n'])) = strings.TrimSpace (String.mk l) := by
  unfold strings.TrimSpace
  have hn : strings.isSpace '\n' = true := by decide
  show String.mk (((l ++ ['\n']).dropWhile strings.isSpace).reverse.dropWhile
      strings.isSpace).reverse =
    String.mk ((l.dropWhile strings.isSpace).reverse.dropWhile strings.isSpace).reverse
  rw [dropWhile_append_space strings.isSpace '\n' hn l]
  by_cases h : l.dropWhile strings.isSpace = []
  · simp [h]
  · simp [h, List.dropWhile_cons, hn]

theorem splitAtDelim_line (delim : Char) (l rest : List Char) (h : delim ∉ l) :
    splitAtDelim delim (l ++ delim :: rest) = some (l ++ [delim], rest) := by
  induction l with
  | nil => simp [splitAtDelim]
  | cons x l ih =>
    have hx : x ≠ delim := fun e => h (by simp [e])
    have hl : delim ∉ l := fun e => h (List.mem_cons_of_mem x e)
    simp [splitAtDelim, hx, ih hl]

theorem splitAtDelim_none (delim : Char) (l : List Char) (h : delim ∉ l) :
    splitAtDelim delim l = none := by
  induction l with
  | nil => simp [splitAtDelim]
  | cons x l ih =>
    have hx : x ≠ delim := fun e => h (by simp [e])
    have hl : delim ∉ l := fun e => h (List.mem_cons_of_mem x e)
    simp [splitAtDelim, hx, ih hl]

theorem newPinger_of_accepted (args : Args) (line : String) (tls : Bool)
    (h : Accepted (strings.TrimSpace line) args.count args.proto) :
    newPinger (strings.TrimSpace line) args.login args.pass args.count args.v6 args.proto tls =
      .ok (pingerOf args line tls) := by
  obtain ⟨a1, a2, a3, a4, a5⟩ := h
  rcases newPinger_cases (strings.TrimSpace line) args.login args.pass args.count args.v6
      args.proto tls with
    ⟨a, _⟩ | ⟨_, b, _⟩ | ⟨_, _, c, _⟩ | ⟨_, _, _, d, _⟩ | ⟨_, _, _, _, e, _⟩ |
    ⟨_, _, _, _, _, hr⟩
  · exact absurd a a1
  · exact absurd b a2
  · exact absurd c a3
  · exact absurd d a4
  · exact absurd e a5
  · exact hr

theorem Do_sessions (env : Env) (p : StratumPinger) (w : World) :
    sessions (Do env p w).2.trace = sessions w.trace ++ [p] := by
  cases hres : env.resolveIPAddr w.resolves with
  | error err => exact (Do_unresolved env p w err hres).2.2.2.2
  | ok a => exact (Do_resolved env p w a hres).2.2.2.2.1

theorem StratumPing_of_ok (env : Env) (server login pass : String) (count : Int)
    (ipv6 : Bool) (proto : String) (tls : Bool) (w : World) (p : StratumPinger)
    (h : newPinger server login pass count ipv6 proto tls = .ok p) :
    (StratumPing env server login pass count ipv6 proto tls w).1 = none ∧
    sessions (StratumPing env server login pass count ipv6 proto tls w).2.trace =
      sessions w.trace ++ [p] := by
  have hs := Do_sessions env p w
  unfold StratumPing
  rw [h]
  dsimp only
  rcases hd : Do env p w with ⟨_ | err, w1⟩
  · rw [hd] at hs
    exact ⟨rfl, hs⟩
  · rw [hd] at hs
    refine ⟨rfl, ?_⟩
    simp only [World.emit, sessions, List.filterMap_append] at hs ⊢
    simp [hs]

theorem runLine_sessions (env : Env) (args : Args) (w : World) (line : String)
    (h : Accepted (strings.TrimSpace line) args.count args.proto) :
    sessions (runLine env args w line).trace =
      sessions w.trace ++ [pingerOf args line false, pingerOf args line true] := by
  unfold runLine
  rw [(StratumPing_of_ok env _ _ _ _ _ _ true _ _ (newPinger_of_accepted args line true h)).2,
    (StratumPing_of_ok env _ _ _ _ _ _ false w _ (newPinger_of_accepted args line false h)).2]
  simp

theorem runLines_sessions (env : Env) (args : Args) (lines : List String) :
    ∀ w : World, (∀ l ∈ lines, Accepted (strings.TrimSpace l) args.count args.proto) →
      sessions (runLines env args w lines).trace =
        sessions w.trace ++
          lines.flatMap fun l => [pingerOf args l false, pingerOf args l true] := by
  induction lines with
  | nil => intro w _; simp [runLines]
  | cons l lines ih =>
    intro w h
    have h1 := ih (runLine env args w l) fun x hx => h x (List.mem_cons_of_mem l hx)
    unfold runLines at h1 ⊢
    rw [List.foldl_cons, h1, runLine_sessions env args w l (h l (List.mem_cons_self l lines))]
    simp

theorem batchLoop_accepted_line (env : Env) (args : Args) (fuel : Nat) (l : String)
    (rest : List Char) (failure : Option String) (w : World)
    (hnl : '\n' ∉ l.toList)
    (h : Accepted (strings.TrimSpace l) args.count args.proto) :
    batchLoop env args (fuel + 1) { data := l.toList ++ '\n' :: rest, failure := failure } w =
      batchLoop env args fuel { data := rest, failure := failure } (runLine env args w l) := by
  have ht : strings.TrimSpace (String.mk (l.toList ++ ['\n'])) = strings.TrimSpace l :=
    TrimSpace_newline l.toList
  have h1 := StratumPing_of_ok env _ _ _ _ _ _ false w _ (newPinger_of_accepted args l false h)
  have h2 := StratumPing_of_ok env _ _ _ _ _ _ true
    (StratumPing env (strings.TrimSpace l) args.login args.pass args.count args.v6
      args.proto false w).2 _ (newPinger_of_accepted args l true h)
  unfold runLine
  rw [batchLoop]
  simp only [Reader.ReadString, splitAtDelim_line '\n' l.toList rest hnl, ht]
  rcases hS1 : StratumPing env (strings.TrimSpace l) args.login args.pass args.count args.v6
    args.proto false w with ⟨r1, w1⟩
  rw [hS1] at h1 h2
  simp only at h1 h2
  rw [h1.1]
  dsimp only
  rcases hS2 : StratumPing env (strings.TrimSpace l) args.login args.pass args.count args.v6
    args.proto true w1 with ⟨r2, w2⟩
  rw [hS2] at h2
  simp only at h2
  rw [h2.1]

theorem batchLoop_accepted_lines (env : Env) (args : Args) (failure : Option String)
    (lines : List String) :
    ∀ (fuel : Nat) (rest : List Char) (w : World),
      (∀ l ∈ lines, '\n' ∉ l.toList ∧ Accepted (strings.TrimSpace l) args.count args.proto) →
      batchLoop env args (fuel + lines.length)
          { data := (lines.flatMap fun l => l.toList ++ ['\n']) ++ rest, failure := failure } w =
        batchLoop env args fuel { data := rest, failure := failure }
          (runLines env args w lines) := by
  induction lines with
  | nil => intro fuel rest w _; simp [runLines]
  | cons l lines ih =>
    intro fuel rest w h
    have hl := h l (List.mem_cons_self l lines)
    have := batchLoop_accepted_line env args (fuel + lines.length) l
      ((lines.flatMap fun l => l.toList ++ ['\n']) ++ rest) failure w hl.1 hl.2
    simp only [List.flatMap_cons, List.length_cons, List.append_assoc, List.singleton_append,
      List.cons_append, List.nil_append]
    rw [← Nat.add_assoc, this, ih fuel rest _ fun x hx => h x (List.mem_cons_of_mem l hx)]
    rfl

theorem flatMap_line_length (lines : List String) :
    lines.length ≤ (lines.flatMap fun l => l.toList ++ ['\n']).length := by
  induction lines with
  | nil => simp
  | cons l lines ih =>
    simp only [List.flatMap_cons, List.length_append, List.length_cons, List.length_nil]
    omega

/-- The batch loop on a line whose target fails validation: the error is
printed and the loop ends; `tail` is empty or starts with the newline that ends
the line. -/
theorem batchLoop_rejected_line (env : Env) (args : Args) (fuel : Nat) (bad : String)
    (tail : List Char) (failure : Option String) (w : World) (e : String)
    (hnl : '\n' ∉ bad.toList) (htail : tail = [] ∨ ∃ rest, tail = '\n' :: rest)
    (h : newPinger (strings.TrimSpace bad) args.login args.pass args.count args.v6 args.proto
      false = .error e) :
    batchLoop env args (fuel + 1) { data := bad.toList ++ tail, failure := failure } w =
      some (w.emit (.printf (.error e))) := by
  have hS := StratumPing_world_of_error env _ _ _ _ _ _ _ w e h
  rw [batchLoop]
  rcases htail with rfl | ⟨rest, rfl⟩
  · simp only [Reader.ReadString, List.append_nil, splitAtDelim_none '\n' bad.toList hnl]
    have hb : String.mk bad.toList = bad := rfl
    rw [hb, hS]
  · have ht : strings.TrimSpace (String.mk (bad.toList ++ ['\n'])) = strings.TrimSpace bad :=
      TrimSpace_newline bad.toList
    simp only [Reader.ReadString, splitAtDelim_line '\n' bad.toList rest hnl, ht]
    rw [hS]

theorem newPinger_of_not_accepted (server login pass : String) (count : Int) (ipv6 : Bool)
    (proto : String) (tls : Bool) (h : ¬ Accepted server count proto) :
    ∃ e, newPinger server login pass count ipv6 proto tls = .error e := by
  rcases newPinger_cases server login pass count ipv6 proto tls with
    ⟨_, hr⟩ | ⟨_, _, hr⟩ | ⟨_, _, _, hr⟩ | ⟨_, _, _, _, hr⟩ | ⟨_, _, _, _, _, hr⟩ |
    ⟨a, b, c, d, e, _⟩
  · exact ⟨_, hr⟩
  · exact ⟨_, hr⟩
  · exact ⟨_, hr⟩
  · exact ⟨_, hr⟩
  · exact ⟨_, hr⟩
  · exact absurd ⟨a, b, c, d, e⟩ h

/-- The batch loop on a last line without a newline whose target passes
validation: its two sessions run, then the loop ends. -/
theorem batchLoop_unterminated_line (env : Env) (args : Args) (fuel : Nat) (l : String)
    (failure : Option String) (w : World) (hnl : '\n' ∉ l.toList)
    (h : Accepted (strings.TrimSpace l) args.count args.proto) :
    ∃ w', batchLoop env args (fuel + 1) { data := l.toList, failure := failure } w = some w' ∧
      sessions w'.trace = sessions (runLine env args w l).trace := by
  have h1 := StratumPing_of_ok env _ _ _ _ _ _ false w _ (newPinger_of_accepted args l false h)
  have h2 := StratumPing_of_ok env _ _ _ _ _ _ true
    (StratumPing env (strings.TrimSpace l) args.login args.pass args.count args.v6
      args.proto false w).2 _ (newPinger_of_accepted args l true h)
  unfold runLine
  rw [batchLoop]
  simp only [Reader.ReadString, splitAtDelim_none '\n' l.toList hnl]
  have hb : String.mk l.toList = l := rfl
  rw [hb]
  rcases hS1 : StratumPing env (strings.TrimSpace l) args.login args.pass args.count args.v6
    args.proto false w with ⟨r1, w1⟩
  rw [hS1] at h1 h2
  simp only at h1 h2
  rw [h1.1]
  dsimp only
  rcases hS2 : StratumPing env (strings.TrimSpace l) args.login args.pass args.count args.v6
    args.proto true w1 with ⟨r2, w2⟩
  rw [hS2] at h2
  simp only at h2
  rw [h2.1]
  dsimp only
  cases failure with
  | none => exact ⟨_, rfl, rfl⟩
  | some err =>
    refine ⟨_, rfl, ?_⟩
    simp [World.emit, sessions, List.filterMap_append]

theorem newPinger_empty (login pass : String) (count : Int) (ipv6 : Bool) (proto : String)
    (tls : Bool) :
    newPinger (strings.TrimSpace "") login pass count ipv6 proto tls = .error errEmptyTarget := by
  have : strings.TrimSpace "" = "" := by decide
  rw [this]
  simp [newPinger]

/-- The sessions of a batch run over a file all of whose lines pass
validation. -/
theorem batch_sessions (env : Env) (args : Args) (lines : List String) (trailing : Bool)
    (failure : Option String) (w : World) (hfile : args.inputFile ≠ "")
    (hlines : ∀ l ∈ lines,
      '\n' ∉ l.toList ∧ Accepted (strings.TrimSpace l) args.count args.proto) :
    ∃ w', main env args (.ok { data := fileText lines trailing, failure := failure }) w =
        some w' ∧
      sessions w'.trace =
        sessions w.trace ++
          lines.flatMap fun l => [pingerOf args l false, pingerOf args l true] := by
  have hacc : ∀ l ∈ lines, Accepted (strings.TrimSpace l) args.count args.proto :=
    fun l hl => (hlines l hl).2
  unfold main
  simp only [hfile, if_false]
  have hempty : ∀ (k : Nat) (w1 : World),
      batchLoop env args (k + 1) { data := [], failure := failure } w1 =
        some (w1.emit (.printf (.error errEmptyTarget))) := by
    intro k w1
    have := batchLoop_rejected_line env args k "" [] failure w1 errEmptyTarget
      (by simp) (Or.inl rfl) (newPinger_empty _ _ _ _ _ _)
    simpa using this
  have hterm : ∀ (L : List String),
      (∀ l ∈ L, '\n' ∉ l.toList ∧ Accepted (strings.TrimSpace l) args.count args.proto) →
      ∃ w', batchLoop env args ((L.flatMap fun l => l.toList ++ ['\n']).length + 1)
          { data := L.flatMap fun l => l.toList ++ ['\n'], failure := failure } w = some w' ∧
        sessions w'.trace = sessions (runLines env args w L).trace := by
    intro L hL
    obtain ⟨k, hk⟩ := Nat.exists_eq_add_of_le (flatMap_line_length L)
    have := batchLoop_accepted_lines env args failure L (k + 1) [] w hL
    rw [List.append_nil] at this
    have hf : (L.flatMap fun l => l.toList ++ ['\n']).length + 1 = k + 1 + L.length := by omega
    rw [hf, this, hempty]
    exact ⟨_, rfl, by simp [World.emit, sessions, List.filterMap_append]⟩
  cases trailing with
  | true =>
    simp only [fileText, if_true]
    obtain ⟨w', h1, h2⟩ := hterm lines hlines
    exact ⟨w', h1, by rw [h2, runLines_sessions env args lines w hacc]⟩
  | false =>
    simp only [fileText, Bool.false_eq_true, if_false]
    rcases List.eq_nil_or_concat lines with rfl | ⟨init, last, hcat⟩
    · have := hempty 0 w
      simp only [List.flatMap_nil, List.dropLast_nil, List.length_nil, zero_add] at this ⊢
      exact ⟨_, this, by simp [World.emit, sessions, List.filterMap_append]⟩
    · rw [List.concat_eq_append] at hcat
      subst hcat
      have hd : ((init ++ [last]).flatMap fun l => l.toList ++ ['\n']).dropLast =
          (init.flatMap fun l => l.toList ++ ['\n']) ++ last.toList := by
        rw [List.flatMap_append]
        simp only [List.flatMap_cons, List.flatMap_nil, List.append_nil]
        rw [← List.append_assoc, List.dropLast_concat]
      rw [hd]
      have hinit : ∀ l ∈ init,
          '\n' ∉ l.toList ∧ Accepted (strings.TrimSpace l) args.count args.proto :=
        fun l hl => hlines l (List.mem_append_left _ hl)
      have hlast := hlines last (List.mem_append_right _ (List.mem_singleton_self last))
      obtain ⟨k, hk⟩ := Nat.exists_eq_add_of_le (flatMap_line_length init)
      have hf : ((init.flatMap fun l => l.toList ++ ['\n']) ++ last.toList).length + 1 =
          (k + last.toList.length + 1) + init.length := by
        rw [List.length_append]; omega
      rw [hf, batchLoop_accepted_lines env args failure init _ last.toList w hinit]
      obtain ⟨w', h1, h2⟩ := batchLoop_unterminated_line env args (k + last.toList.length) last
        failure (runLines env args w init) hlast.1 hlast.2
      refine ⟨w', h1, ?_⟩
      rw [h2, ← runLines_sessions env args (init ++ [last]) w hacc]
      simp [runLines]

theorem accepted_of_newPinger_ok (server login pass : String) (count : Int) (ipv6 : Bool)
    (proto : String) (tls : Bool)
    (h : (newPinger server login pass count ipv6 proto tls).toBool = true) :
    Accepted server count proto := by
  rcases newPinger_cases server login pass count ipv6 proto tls with
    ⟨_, hr⟩ | ⟨_, _, hr⟩ | ⟨_, _, _, hr⟩ | ⟨_, _, _, _, hr⟩ | ⟨_, _, _, _, _, hr⟩ |
    ⟨a, b, c, d, e, _⟩
  any_goals (rw [hr] at h; cases h)
  exact ⟨a, b, c, d, e⟩

theorem length_flatMap_pair {α β : Type} (f g : α → β) (l : List α) :
    (l.flatMap fun x => [f x, g x]).length = 2 * l.length := by
  induction l with
  | nil => rfl
  | cons x l ih =>
    rw [List.flatMap_cons, List.length_append, ih, List.length_cons]
    simp only [List.length_cons, List.length_nil]
    omega

theorem not_accepted_of_newPinger_error (server login pass : String) (count : Int)
    (ipv6 : Bool) (proto : String) (tls : Bool) (e : String)
    (h : newPinger server login pass count ipv6 proto tls = .error e) :
    ¬ Accepted server count proto := by
  intro hacc
  obtain ⟨a1, a2, a3, a4, a5⟩ := hacc
  rcases newPinger_cases server login pass count ipv6 proto tls with
    ⟨a, _⟩ | ⟨_, b, _⟩ | ⟨_, _, c, _⟩ | ⟨_, _, _, d, _⟩ | ⟨_, _, _, _, e', _⟩ |
    ⟨_, _, _, _, _, hr⟩
  · exact a1 a
  · exact a2 b
  · exact a3 c
  · exact a4 d
  · exact a5 e'
  · rw [hr] at h; cases h

/-- C9: in batch mode, for every input file all of whose lines pass validation
after trimming, whether or not the file ends with a newline, whatever the `-tls`
flag and the other flags, and whatever the network answers, the run ends and the
sessions it runs are, for each line in file order, the session of the trimmed
line with TLS off followed by the one with TLS on: `2 n` sessions for `n`
lines. -/
theorem batch_runs_both_variants (env : Env) (args : Args) (lines : List String)
    (trailing : Bool) (failure : Option String) (w : World) (hfile : args.inputFile ≠ "")
    (hlines : ∀ l ∈ lines,
      '\n' ∉ l.toList ∧ Accepted (strings.TrimSpace l) args.count args.proto) :
    ∃ w', main env args (.ok { data := fileText lines trailing, failure := failure }) w =
        some w' ∧
      sessions w'.trace =
        sessions w.trace ++
          (lines.flatMap fun l => [pingerOf args l false, pingerOf args l true]) ∧
      (sessions w'.trace).length = (sessions w.trace).length + 2 * lines.length := by
  obtain ⟨w', h1, h2⟩ := batch_sessions env args lines trailing failure w hfile hlines
  refine ⟨w', h1, h2, ?_⟩
  rw [h2, List.length_append, length_flatMap_pair]

theorem sample_lines_accepted :
    ∀ l ∈ ["a.example:1", " b.example:2\r"],
      '\n' ∉ l.toList ∧ Accepted (strings.TrimSpace l) sampleArgs.count sampleArgs.proto := by
  intro l hl
  simp only [List.mem_cons, List.mem_singleton, List.not_mem_nil, or_false] at hl
  rcases hl with rfl | rfl
  · exact ⟨by decide,
      accepted_of_newPinger_ok _ "" "" _ false _ false (by decide)⟩
  · exact ⟨by decide,
      accepted_of_newPinger_ok _ "" "" _ false _ false (by decide)⟩

/-- C9, for a file of two lines that ends with a newline. -/
theorem batch_runs_both_variants_witness :
    (sampleArgs.inputFile ≠ "" ∧
      ∀ l ∈ ["a.example:1", " b.example:2\r"],
        '\n' ∉ l.toList ∧ Accepted (strings.TrimSpace l) sampleArgs.count sampleArgs.proto) ∧
    ∃ w', main Env.offline sampleArgs
        (.ok { data := fileText ["a.example:1", " b.example:2\r"] true, failure := none })
        World.init = some w' ∧
      sessions w'.trace =
        sessions World.init.trace ++
          (["a.example:1", " b.example:2\r"].flatMap fun l =>
            [pingerOf sampleArgs l false, pingerOf sampleArgs l true]) ∧
      (sessions w'.trace).length =
        (sessions World.init.trace).length + 2 * ["a.example:1", " b.example:2\r"].length :=
  ⟨⟨by decide, sample_lines_accepted⟩,
    batch_runs_both_variants Env.offline sampleArgs ["a.example:1", " b.example:2\r"] true none
      World.init (by decide) sample_lines_accepted⟩

/-- C8 (counterexample): with a resolver that fails for every name, the first
session of a two-line file (first line, TLS off) fails to resolve, and the batch
run still starts the TLS-on session of that line and both sessions of the second
line. -/
theorem batch_continues_after_resolve_failure :
    (Do Env.offline (pingerOf sampleArgs "a.example:1" false) World.init).1 =
      some "Failed to resolve host name: no such host" ∧
    (main Env.offline sampleArgs
        (.ok { data := "a.example:1\nb.example:2\n".toList, failure := none })
        World.init).map (fun w => sessions w.trace) =
      some [pingerOf sampleArgs "a.example:1" false, pingerOf sampleArgs "a.example:1" true,
        pingerOf sampleArgs "b.example:2" false, pingerOf sampleArgs "b.example:2" true] := by
  constructor
  · decide
  · decide

/-- C8 (amended): in batch mode the loop halts on the first validation error:
when the lines before a line all pass validation and that line fails it, the run
ends by printing the validation error of that line, and the sessions run are
exactly the two sessions of each earlier line; no session is started for the
failing line or for anything after it.  A session that fails to resolve does not
halt the loop (the network is arbitrary here). -/
theorem batch_halts_on_validation_error (env : Env) (args : Args) (lines : List String)
    (bad : String) (tail : List Char) (failure : Option String) (w : World)
    (hfile : args.inputFile ≠ "")
    (hlines : ∀ l ∈ lines,
      '\n' ∉ l.toList ∧ Accepted (strings.TrimSpace l) args.count args.proto)
    (hnl : '\n' ∉ bad.toList) (htail : tail = [] ∨ ∃ rest, tail = '\n' :: rest)
    (hbad : ¬ Accepted (strings.TrimSpace bad) args.count args.proto) :
    ∃ w' e,
      main env args
        (.ok { data := (lines.flatMap fun l => l.toList ++ ['\n']) ++ (bad.toList ++ tail),
               failure := failure }) w = some w' ∧
      newPinger (strings.TrimSpace bad) args.login args.pass args.count args.v6 args.proto
        false = .error e ∧
      w'.trace.getLast? = some (.printf (.error e)) ∧
      sessions w'.trace =
        sessions w.trace ++
          lines.flatMap fun l => [pingerOf args l false, pingerOf args l true] := by
  obtain ⟨e, he⟩ := newPinger_of_not_accepted (strings.TrimSpace bad) args.login args.pass
    args.count args.v6 args.proto false hbad
  unfold main
  simp only [hfile, if_false]
  obtain ⟨k, hk⟩ := Nat.exists_eq_add_of_le (flatMap_line_length lines)
  have hf : ((lines.flatMap fun l => l.toList ++ ['\n']) ++ (bad.toList ++ tail)).length + 1 =
      (k + (bad.toList ++ tail).length + 1) + lines.length := by
    rw [List.length_append]; omega
  rw [hf, batchLoop_accepted_lines env args failure lines _ _ w hlines,
    batchLoop_rejected_line env args _ bad tail failure _ e hnl htail he]
  refine ⟨_, e, rfl, he, by simp [World.emit], ?_⟩
  rw [← runLines_sessions env args lines w fun l hl => (hlines l hl).2]
  simp [World.emit, sessions, List.filterMap_append]

/-- C8 (amended), for a file whose third line has no port. -/
theorem batch_halts_on_validation_error_witness :
    (sampleArgs.inputFile ≠ "" ∧
      (∀ l ∈ ["a.example:1", " b.example:2\r"],
        '\n' ∉ l.toList ∧ Accepted (strings.TrimSpace l) sampleArgs.count sampleArgs.proto) ∧
      '\n' ∉ "c.example".toList ∧
      ("\nd.example:4\n".toList = [] ∨ ∃ rest, "\nd.example:4\n".toList = '\n' :: rest) ∧
      ¬ Accepted (strings.TrimSpace "c.example") sampleArgs.count sampleArgs.proto) ∧
    ∃ w' e,
      main Env.offline sampleArgs
        (.ok { data := (["a.example:1", " b.example:2\r"].flatMap fun l => l.toList ++ ['\n']) ++
                 ("c.example".toList ++ "\nd.example:4\n".toList),
               failure := none }) World.init = some w' ∧
      newPinger (strings.TrimSpace "c.example") sampleArgs.login sampleArgs.pass
        sampleArgs.count sampleArgs.v6 sampleArgs.proto false = .error e ∧
      w'.trace.getLast? = some (.printf (.error e)) ∧
      sessions w'.trace =
        sessions World.init.trace ++
          ["a.example:1", " b.example:2\r"].flatMap fun l =>
            [pingerOf sampleArgs l false, pingerOf sampleArgs l true] :=
  ⟨⟨by decide, sample_lines_accepted, by decide, Or.inr ⟨_, rfl⟩,
      not_accepted_of_newPinger_error _ "" "" _ false _ false errMalformedTarget (by decide)⟩,
    batch_halts_on_validation_error Env.offline sampleArgs ["a.example:1", " b.example:2\r"]
      "c.example" "\nd.example:4\n".toList none World.init (by decide) sample_lines_accepted
      (by decide) (Or.inr ⟨_, rfl⟩)
      (not_accepted_of_newPinger_error _ "" "" _ false _ false errMalformedTarget (by decide))⟩

/-- C6, for the target `pool.example:4444` and the protocol `stratum1`. -/
theorem request_shape_witness :
    newPinger "pool.example:4444" "wallet" "x" 5 false "stratum1" true = .ok legacyPinger ∧
    ((∃ req, request legacyPinger = some req ∧
      (("stratum1" = "stratum1" ∧
          req.map Prod.fst = ["id", "jsonrpc", "method", "params"] ∧
          req.lookup "id" = some (.number 1) ∧
          req.lookup "jsonrpc" = some (.text "2.0") ∧
          req.lookup "method" = some (.text "eth_submitLogin") ∧
          req.lookup "params" = some (.texts ["wallet", "x"])) ∨
       ("stratum1" = "stratum2" ∧
          req.map Prod.fst = ["id", "method", "params"] ∧
          req.lookup "id" = some (.number 1) ∧
          req.lookup "method" = some (.text "mining.subscribe") ∧
          req.lookup "params" =
            some (.texts ["stratum-ping/1.0.0", "EthereumStratum/1.0.0"])))) ∧
    ∀ (env : Env) (a : IPAddr) (w : World),
      encoded (DoPing env legacyPinger a w).2.trace =
        encoded w.trace ++
          (match env.attempt w.attempts with
           | .dialError _ => []
           | _ => [request legacyPinger])) :=
  ⟨by decide,
    request_shape "pool.example:4444" "wallet" "x" 5 false "stratum1" true legacyPinger
      (by decide)⟩

/-- C7: in an attempt whose connection opens and whose request cannot be sent,
and in one whose connection opens and whose read fails, `DoPing` returns the
error without a call of `conn.Close()`: the trace of the attempt has the dial
and no close. -/
theorem DoPing_error_leaves_connection_open :
    DoPing Env.flaky samplePinger sampleAddr World.init =
      (.error "broken pipe",
        { trace := [.dial false "tcp4" "192.0.2.1:4444", .setWriteDeadline 10000000000,
            .encode (request samplePinger)],
          resolves := 0, attempts := 1 }) ∧
    Event.close ∉ (DoPing Env.flaky samplePinger sampleAddr World.init).2.trace ∧
    DoPing Env.flaky samplePinger sampleAddr { trace := [], resolves := 0, attempts := 1 } =
      (.error "i/o timeout",
        { trace := [.dial false "tcp4" "192.0.2.1:4444", .setWriteDeadline 10000000000,
            .encode (request samplePinger), .setReadDeadline 10000000000, .readLine],
          resolves := 0, attempts := 2 }) ∧
    Event.close ∉
      (DoPing Env.flaky samplePinger sampleAddr
        { trace := [], resolves := 0, attempts := 1 }).2.trace := by
  decide

/-! ## The loss percentage -/

theorem scaleUp_spec : ∀ (fuel n d : Nat) (e : Int), 0 < n →
    (((F64.scaleUp fuel n d e).1 : ℚ) * (2 : ℚ) ^ (F64.scaleUp fuel n d e).2 = n * (2 : ℚ) ^ e) ∧
    0 < (F64.scaleUp fuel n d e).1 ∧
    (2 ^ 52 * d ≤ n * 2 ^ fuel → 2 ^ 52 * d ≤ (F64.scaleUp fuel n d e).1) := by
  intro fuel
  induction fuel with
  | zero =>
    intro n d e hn
    simp [F64.scaleUp, hn]
  | succ fuel ih =>
    intro n d e hn
    unfold F64.scaleUp
    by_cases h : n < 2 ^ 52 * d
    · simp only [h, if_true]
      obtain ⟨h1, h2, h3⟩ := ih (2 * n) d (e - 1) (by omega)
      refine ⟨?_, h2, ?_⟩
      · rw [h1, zpow_sub_one₀ (by norm_num : (2 : ℚ) ≠ 0)]
        push_cast
        field_simp
        ring
      · intro hf
        apply h3
        calc 2 ^ 52 * d ≤ n * 2 ^ (fuel + 1) := hf
          _ = 2 * n * 2 ^ fuel := by ring
    · simp only [h, if_false]
      exact ⟨trivial, hn, fun _ => not_lt.mp h⟩

theorem scaleDown_spec : ∀ (fuel d n : Nat) (e : Int), 0 < d →
    (((F64.scaleDown fuel d n e).1 : ℚ) * (2 : ℚ) ^ e =
      d * (2 : ℚ) ^ (F64.scaleDown fuel d n e).2) ∧
    0 < (F64.scaleDown fuel d n e).1 ∧
    (2 ^ 52 * d ≤ n → 2 ^ 52 * (F64.scaleDown fuel d n e).1 ≤ n) := by
  intro fuel
  induction fuel with
  | zero =>
    intro d n e hd
    simp [F64.scaleDown, hd]
  | succ fuel ih =>
    intro d n e hd
    unfold F64.scaleDown
    by_cases h : 2 ^ 53 * d ≤ n
    · simp only [h, if_true]
      obtain ⟨h1, h2, h3⟩ := ih (2 * d) n (e + 1) (by omega)
      refine ⟨?_, h2, ?_⟩
      · rw [zpow_add_one₀ (by norm_num : (2 : ℚ) ≠ 0)] at h1
        push_cast at h1
        linarith
      · intro _
        apply h3
        omega
    · simp only [h, if_false]
      exact ⟨trivial, hd, fun h => h⟩

theorem roundQuot_ge (n d : Nat) : n / d ≤ F64.roundQuot n d := by
  unfold F64.roundQuot
  simp only
  split_ifs <;> omega

theorem roundQuot_le_of_le (n d N : Nat) (hd : 0 < d) (h : n ≤ N * d) :
    F64.roundQuot n d ≤ N := by
  unfold F64.roundQuot
  simp only
  have hq : n / d ≤ N := by
    calc n / d ≤ N * d / d := Nat.div_le_div_right h
      _ = N := Nat.mul_div_cancel N hd
  split_ifs with hr
  · have hr0 : 0 < n % d := by
      rcases hr with h1 | ⟨h1, _⟩ <;> omega
    have hlt : n / d < N := by
      by_contra hge
      have hN : n / d = N := by omega
      have := Nat.div_add_mod n d
      rw [hN] at this
      have : d * N = N * d := Nat.mul_comm d N
      omega
    omega
  · exact hq

theorem roundQuot_ge_of_le (n d N : Nat) (hd : 0 < d) (h : N * d ≤ n) :
    N ≤ F64.roundQuot n d :=
  le_trans ((Nat.le_div_iff_mul_le hd).mpr h) (roundQuot_ge n d)

theorem F64.round_zero (neg : Bool) (d : Nat) (e : Int) :
    F64.round neg 0 d e = { neg := neg, m := 0, e := 0 } := by
  simp [F64.round]

/-- The rounded quotient with its scaling: what `F64.round` computes for a
positive numerator and denominator. -/
theorem F64.round_scaled (neg : Bool) (n d : Nat) (e : Int) (hn : 0 < n) (hd : 0 < d) :
    ∃ (n1 d1 : Nat) (e2 : Int),
      F64.round neg n d e = { neg := neg, m := F64.roundQuot n1 d1, e := e2 } ∧
      0 < d1 ∧ 2 ^ 52 * d1 ≤ n1 ∧
      (n1 : ℚ) / d1 * (2 : ℚ) ^ e2 = (n : ℚ) / d * (2 : ℚ) ^ e := by
  obtain ⟨u1, u2, u3⟩ := scaleUp_spec (d + 52) n d e hn
  have hfuel : 2 ^ 52 * d ≤ n * 2 ^ (d + 52) := by
    have h1 : d ≤ 2 ^ d := le_of_lt (Nat.lt_two_pow d)
    calc 2 ^ 52 * d ≤ 2 ^ 52 * 2 ^ d := Nat.mul_le_mul_left _ h1
      _ = 1 * 2 ^ (d + 52) := by rw [pow_add]; ring
      _ ≤ n * 2 ^ (d + 52) := Nat.mul_le_mul_right _ hn
  have u4 := u3 hfuel
  obtain ⟨v1, v2, v3⟩ := scaleDown_spec (F64.scaleUp (d + 52) n d e).1 d
    (F64.scaleUp (d + 52) n d e).1 (F64.scaleUp (d + 52) n d e).2 hd
  have v4 := v3 u4
  refine ⟨(F64.scaleUp (d + 52) n d e).1,
    (F64.scaleDown (F64.scaleUp (d + 52) n d e).1 d (F64.scaleUp (d + 52) n d e).1
      (F64.scaleUp (d + 52) n d e).2).1,
    (F64.scaleDown (F64.scaleUp (d + 52) n d e).1 d (F64.scaleUp (d + 52) n d e).1
      (F64.scaleUp (d + 52) n d e).2).2, ?_, v2, v4, ?_⟩
  · unfold F64.round
    have h0 : ¬ (n = 0 ∨ d = 0) := by omega
    simp only [h0, if_false]
  · generalize (F64.scaleUp (d + 52) n d e).1 = n1 at *
    generalize (F64.scaleUp (d + 52) n d e).2 = e1 at *
    generalize (F64.scaleDown n1 d n1 e1).1 = d1 at *
    generalize (F64.scaleDown n1 d n1 e1).2 = e2 at *
    have hd1 : (d1 : ℚ) ≠ 0 := by exact_mod_cast (Nat.pos_iff_ne_zero.mp v2)
    have hd0 : (d : ℚ) ≠ 0 := by exact_mod_cast (Nat.pos_iff_ne_zero.mp hd)
    have hp : (2 : ℚ) ^ e1 ≠ 0 := zpow_ne_zero _ (by norm_num)
    have key : (n1 : ℚ) * (2 : ℚ) ^ e2 * d = n * (2 : ℚ) ^ e * d1 := by
      have : (n1 : ℚ) * (2 : ℚ) ^ e2 * d * (2 : ℚ) ^ e1 = n * (2 : ℚ) ^ e * d1 * (2 : ℚ) ^ e1 := by
        calc (n1 : ℚ) * (2 : ℚ) ^ e2 * d * (2 : ℚ) ^ e1
            = ((n1 : ℚ) * (2 : ℚ) ^ e1) * ((d : ℚ) * (2 : ℚ) ^ e2) := by ring
          _ = (n * (2 : ℚ) ^ e) * ((d1 : ℚ) * (2 : ℚ) ^ e1) := by rw [u1, v1]
          _ = n * (2 : ℚ) ^ e * d1 * (2 : ℚ) ^ e1 := by ring
      exact mul_right_cancel₀ hp this
    field_simp
    linarith

theorem F64.round_neg (neg : Bool) (n d : Nat) (e : Int) : (F64.round neg n d e).neg = neg := by
  unfold F64.round
  split_ifs <;> rfl

theorem F64.mag_round_le (neg : Bool) (n d : Nat) (e : Int) (M : Nat) (hn : 0 < n)
    (hd : 0 < d) (hM : M ≤ 2 ^ 52) (h : (n : ℚ) / d * (2 : ℚ) ^ e ≤ M) :
    (F64.round neg n d e).mag ≤ M := by
  obtain ⟨n1, d1, e2, hr, hd1, hlow, hval⟩ := F64.round_scaled neg n d e hn hd
  rw [hr]
  simp only [F64.mag]
  rw [← hval] at h
  have hd1q : (0 : ℚ) < d1 := by exact_mod_cast hd1
  have hx : (2 : ℚ) ^ 52 ≤ (n1 : ℚ) / d1 := by
    rw [le_div_iff₀ hd1q]
    exact_mod_cast hlow
  have hMq : (M : ℚ) ≤ 2 ^ 52 := by exact_mod_cast hM
  have hpos : (0 : ℚ) < (2 : ℚ) ^ e2 := zpow_pos (by norm_num) e2
  by_cases he : 0 < e2
  · exfalso
    have h2 : (2 : ℚ) ≤ (2 : ℚ) ^ e2 := by
      have := zpow_le_zpow_right₀ (by norm_num : (1 : ℚ) ≤ 2) (by omega : (1 : ℤ) ≤ e2)
      simpa using this
    have : (2 : ℚ) ^ 52 * 2 ≤ (n1 : ℚ) / d1 * (2 : ℚ) ^ e2 :=
      mul_le_mul hx h2 (by norm_num) (le_trans (by positivity) hx)
    have h52 : (0 : ℚ) < 2 ^ 52 := by positivity
    linarith
  · obtain ⟨t, ht⟩ : ∃ t : Nat, e2 = -(t : Int) := ⟨(-e2).toNat, by omega⟩
    subst ht
    rw [zpow_neg, zpow_natCast] at h ⊢
    have h2t : (0 : ℚ) < (2 : ℚ) ^ t := by positivity
    have hle : n1 ≤ (M * 2 ^ t) * d1 := by
      have : (n1 : ℚ) ≤ M * 2 ^ t * d1 := by
        have h' : (n1 : ℚ) / d1 ≤ M * 2 ^ t := by
          rw [← div_eq_mul_inv, div_le_iff₀ h2t] at h
          exact h
        rwa [div_le_iff₀ hd1q] at h'
      exact_mod_cast this
    have hq := roundQuot_le_of_le n1 d1 (M * 2 ^ t) hd1 hle
    rw [← div_eq_mul_inv, div_le_iff₀ h2t]
    exact_mod_cast hq

theorem F64.mag_round_ge (neg : Bool) (n d : Nat) (e : Int) (M : Nat) (hn : 0 < n)
    (hd : 0 < d) (hM : M ≤ 2 ^ 52) (h : (M : ℚ) ≤ (n : ℚ) / d * (2 : ℚ) ^ e) :
    (M : ℚ) ≤ (F64.round neg n d e).mag := by
  obtain ⟨n1, d1, e2, hr, hd1, hlow, hval⟩ := F64.round_scaled neg n d e hn hd
  rw [hr]
  simp only [F64.mag]
  rw [← hval] at h
  have hd1q : (0 : ℚ) < d1 := by exact_mod_cast hd1
  have hMq : (M : ℚ) ≤ 2 ^ 52 := by exact_mod_cast hM
  by_cases he : 0 ≤ e2
  · have hq : 2 ^ 52 ≤ F64.roundQuot n1 d1 :=
      roundQuot_ge_of_le n1 d1 (2 ^ 52) hd1 hlow
    have hq' : (2 : ℚ) ^ 52 ≤ (F64.roundQuot n1 d1 : ℚ) := by exact_mod_cast hq
    have h1 : (1 : ℚ) ≤ (2 : ℚ) ^ e2 := by
      have := zpow_le_zpow_right₀ (by norm_num : (1 : ℚ) ≤ 2) he
      simpa using this
    calc (M : ℚ) ≤ 2 ^ 52 * 1 := by linarith
      _ ≤ (F64.roundQuot n1 d1 : ℚ) * (2 : ℚ) ^ e2 :=
        mul_le_mul hq' h1 (by norm_num) (le_trans (by positivity) hq')
  · obtain ⟨t, ht⟩ : ∃ t : Nat, e2 = -(t : Int) := ⟨(-e2).toNat, by omega⟩
    subst ht
    rw [zpow_neg, zpow_natCast] at h ⊢
    have h2t : (0 : ℚ) < (2 : ℚ) ^ t := by positivity
    have hle : (M * 2 ^ t) * d1 ≤ n1 := by
      have : (M : ℚ) * 2 ^ t * d1 ≤ n1 := by
        have h' : (M : ℚ) * 2 ^ t ≤ (n1 : ℚ) / d1 := by
          rw [← div_eq_mul_inv, le_div_iff₀ h2t] at h
          exact h
        rwa [le_div_iff₀ hd1q] at h'
      exact_mod_cast this
    have hq := roundQuot_ge_of_le n1 d1 (M * 2 ^ t) hd1 hle
    rw [← div_eq_mul_inv, le_div_iff₀ h2t]
    exact_mod_cast hq

theorem F64.round_m_pos (neg : Bool) (n d : Nat) (e : Int) (hn : 0 < n) (hd : 0 < d) :
    0 < (F64.round neg n d e).m := by
  obtain ⟨n1, d1, e2, hr, hd1, hlow, _⟩ := F64.round_scaled neg n d e hn hd
  rw [hr]
  have := roundQuot_ge_of_le n1 d1 (2 ^ 52) hd1 hlow
  simp only
  omega

theorem F64.ofInt_natCast (n : Nat) (hn : n ≤ 2 ^ 52) :
    (F64.ofInt (n : Int)).neg = false ∧ (F64.ofInt (n : Int)).mag = n ∧
    (0 < n → 0 < (F64.ofInt (n : Int)).m) := by
  unfold F64.ofInt
  have hneg : decide ((n : Int) < 0) = false := by simp
  rw [hneg, Int.natAbs_ofNat]
  refine ⟨F64.round_neg _ _ _ _, ?_, fun h => F64.round_m_pos _ _ _ _ h Nat.one_pos⟩
  rcases Nat.eq_zero_or_pos n with rfl | hpos
  · rw [F64.round_zero]
    simp [F64.mag]
  · apply le_antisymm
    · exact F64.mag_round_le _ _ _ _ n hpos Nat.one_pos hn (by simp)
    · exact F64.mag_round_ge _ _ _ _ n hpos Nat.one_pos hn (by simp)

theorem F64.toInt64_of_mag_le (x : F64) (hneg : x.neg = false) (N : Nat) (hN : N < 2 ^ 63)
    (h : x.mag ≤ N) :
    ∃ k : Nat, F64.toInt64 x = some (k : Int) ∧ k ≤ N ∧ ((N : ℚ) ≤ x.mag → k = N) := by
  have key : ∃ k : Nat,
      (if 0 ≤ x.e then x.m * 2 ^ x.e.toNat else x.m / 2 ^ (-x.e).toNat) = k ∧
      (k : ℚ) ≤ x.mag ∧ ((N : ℚ) ≤ x.mag → N ≤ k) := by
    by_cases he : 0 ≤ x.e
    · obtain ⟨t, ht⟩ := Int.eq_ofNat_of_zero_le he
      refine ⟨x.m * 2 ^ t, by rw [if_pos he, ht, Int.toNat_ofNat], ?_, ?_⟩
      · simp only [F64.mag, ht, zpow_natCast]
        push_cast
        exact le_refl _
      · intro hN'
        simp only [F64.mag, ht, zpow_natCast] at hN'
        exact_mod_cast hN'
    · obtain ⟨t, ht⟩ : ∃ t : Nat, x.e = -(t : Int) := ⟨(-x.e).toNat, by omega⟩
      refine ⟨x.m / 2 ^ t, by rw [if_neg he, ht, neg_neg, Int.toNat_ofNat], ?_, ?_⟩
      · simp only [F64.mag, ht, zpow_neg, zpow_natCast]
        rw [← div_eq_mul_inv]
        have := @Nat.cast_div_le ℚ _ x.m (2 ^ t)
        simpa using this
      · intro hN'
        simp only [F64.mag, ht, zpow_neg, zpow_natCast] at hN'
        rw [← div_eq_mul_inv, le_div_iff₀ (by positivity)] at hN'
        rw [Nat.le_div_iff_mul_le (by positivity)]
        exact_mod_cast hN'
  obtain ⟨k, hk, hk1, hk2⟩ := key
  have hkN : k ≤ N := by
    have : (k : ℚ) ≤ N := le_trans hk1 h
    exact_mod_cast this
  refine ⟨k, ?_, hkN, fun h' => le_antisymm hkN (hk2 h')⟩
  unfold F64.toInt64
  simp only [hk, hneg, Bool.false_eq_true, if_false]
  have h1 : -(2 ^ 63 : Int) ≤ (k : Int) ∧ (k : Int) < 2 ^ 63 := by
    constructor <;> omega
  rw [if_pos h1]

theorem F64.m_ne_zero_of_mag_pos (x : F64) (h : 0 < x.mag) : x.m ≠ 0 := by
  intro h0
  simp [F64.mag, h0] at h

/-- The loss percentage of line 181 for `s` answered attempts out of `c`. -/
theorem lossPercent_natCast (s c : Nat) (hc1 : 1 ≤ c) (hc2 : c ≤ 20000) (hs : s ≤ c) :
    ∃ k : Nat, lossPercent (s : Int) (c : Int) = some (100 - (k : Int)) ∧ k ≤ 100 ∧
      (s = c → k = 100) ∧ (s = 0 → k = 0) := by
  have hc52 : c ≤ 2 ^ 52 := le_trans hc2 (by norm_num)
  have hs52 : s ≤ 2 ^ 52 := le_trans hs hc52
  obtain ⟨xn, xm, xp⟩ := F64.ofInt_natCast s hs52
  obtain ⟨yn, ym, yp⟩ := F64.ofInt_natCast c hc52
  obtain ⟨hn, hm, hp⟩ := F64.ofInt_natCast 100 (by norm_num)
  simp only [Nat.cast_ofNat] at hn hm hp
  have ypos := yp (by omega)
  have hpos := hp (by norm_num)
  have hwrap : ∀ k : Nat, k ≤ 100 → wrap64 (100 - (k : Int)) = 100 - (k : Int) := by
    intro k hk
    apply wrap64_of_range <;> omega
  unfold lossPercent
  have hdiv : F64.div (F64.ofInt (s : Int)) (F64.ofInt (c : Int)) =
      some (F64.round false (F64.ofInt (s : Int)).m (F64.ofInt (c : Int)).m
        ((F64.ofInt (s : Int)).e - (F64.ofInt (c : Int)).e)) := by
    unfold F64.div
    rw [if_neg (by omega), xn, yn]
    rfl
  rw [hdiv]
  simp only
  unfold F64.mul
  rw [F64.round_neg, hn]
  have hff : (false != false) = false := rfl
  rw [hff]
  rcases Nat.eq_zero_or_pos s with rfl | spos
  · have hx0 : (F64.ofInt ((0 : Nat) : Int)).m = 0 := by
      by_contra hne
      have : 0 < (F64.ofInt ((0 : Nat) : Int)).mag := by
        simp only [F64.mag]
        have : (0 : ℚ) < ((F64.ofInt ((0 : Nat) : Int)).m : ℚ) := by
          exact_mod_cast Nat.pos_of_ne_zero hne
        exact mul_pos this (zpow_pos (by norm_num) _)
      rw [xm] at this
      simp at this
    rw [hx0, F64.round_zero]
    simp only [Nat.zero_mul, F64.round_zero]
    refine ⟨0, ?_, by norm_num, fun h => by omega, fun _ => rfl⟩
    have : F64.toInt64 { neg := false, m := 0, e := 0 } = some 0 := by decide
    rw [this]
    simp only [Nat.cast_zero, sub_zero]
    exact congrArg some (hwrap 0 (by norm_num))
  · have xpos := xp spos
    have hV : ((F64.ofInt (s : Int)).m : ℚ) / (F64.ofInt (c : Int)).m *
        (2 : ℚ) ^ ((F64.ofInt (s : Int)).e - (F64.ofInt (c : Int)).e) = (s : ℚ) / c := by
      rw [← xm, ← ym]
      simp only [F64.mag]
      rw [zpow_sub₀ (by norm_num : (2 : ℚ) ≠ 0)]
      have : ((F64.ofInt (c : Int)).m : ℚ) ≠ 0 := by exact_mod_cast (by omega : (F64.ofInt (c : Int)).m ≠ 0)
      have h2 : (2 : ℚ) ^ (F64.ofInt (c : Int)).e ≠ 0 := zpow_ne_zero _ (by norm_num)
      field_simp
    have cq : (0 : ℚ) < c := by exact_mod_cast (by omega : 0 < c)
    have hratio_le : (s : ℚ) / c ≤ 1 := by
      rw [div_le_one cq]
      exact_mod_cast hs
    generalize hr : F64.round false (F64.ofInt (s : Int)).m (F64.ofInt (c : Int)).m
      ((F64.ofInt (s : Int)).e - (F64.ofInt (c : Int)).e) = r
    have r_le : r.mag ≤ 1 := by
      rw [← hr]
      have := F64.mag_round_le false _ _ ((F64.ofInt (s : Int)).e - (F64.ofInt (c : Int)).e) 1
        xpos ypos (by norm_num) (by rw [hV]; simpa using hratio_le)
      simpa using this
    have r_ge : s = c → 1 ≤ r.mag := by
      intro hsc
      rw [← hr]
      have hone : (s : ℚ) / c = 1 := by rw [hsc]; exact div_self (ne_of_gt cq)
      have := F64.mag_round_ge false _ _ ((F64.ofInt (s : Int)).e - (F64.ofInt (c : Int)).e) 1
        xpos ypos (by norm_num) (by rw [hV, hone]; simp)
      simpa using this
    have r_pos : 0 < r.m := by
      rw [← hr]
      exact F64.round_m_pos _ _ _ _ xpos ypos
    have hW : ((r.m * (F64.ofInt 100).m : Nat) : ℚ) / (1 : Nat) *
        (2 : ℚ) ^ (r.e + (F64.ofInt 100).e) =
        r.mag * (F64.ofInt 100).mag := by
      simp only [F64.mag]
      rw [zpow_add₀ (by norm_num : (2 : ℚ) ≠ 0)]
      push_cast
      ring
    have hmpos : 0 < r.m * (F64.ofInt 100).m := Nat.mul_pos r_pos hpos
    have rmag0 : 0 ≤ r.mag := by
      simp only [F64.mag]
      exact mul_nonneg (Nat.cast_nonneg _) (le_of_lt (zpow_pos (by norm_num) _))
    have p_le : (F64.round false (r.m * (F64.ofInt 100).m) 1
        (r.e + (F64.ofInt 100).e)).mag ≤ (100 : Nat) := by
      apply F64.mag_round_le _ _ _ _ 100 hmpos Nat.one_pos (by norm_num)
      rw [hW, hm]
      push_cast
      nlinarith
    have p_ge : s = c → ((100 : Nat) : ℚ) ≤ (F64.round false
        (r.m * (F64.ofInt 100).m) 1
        (r.e + (F64.ofInt 100).e)).mag := by
      intro hsc
      apply F64.mag_round_ge _ _ _ _ 100 hmpos Nat.one_pos (by norm_num)
      rw [hW, hm]
      have := r_ge hsc
      push_cast
      nlinarith
    obtain ⟨k, hk, hk1, hk2⟩ := F64.toInt64_of_mag_le _ (F64.round_neg _ _ _ _) 100
      (by norm_num) p_le
    have h100 : ((100 : Nat) : Int) = 100 := rfl
    rw [hk]
    refine ⟨k, ?_, hk1, fun hsc => hk2 (p_ge hsc), fun h0 => by omega⟩
    simp only
    exact congrArg some (hwrap k hk1)

/-- C5: for every count in `[1, 20000]` and every number of answered attempts
in `[0, count]`, the loss percentage of line 181 is defined and lies in
`[0, 100]`; it is `0` when all attempts are answered and `100` when none is. -/
theorem loss_percent_range (success count : Int) (h1 : 1 ≤ count) (h2 : count ≤ 20000)
    (h3 : 0 ≤ success) (h4 : success ≤ count) :
    ∃ loss, lossPercent success count = some loss ∧ 0 ≤ loss ∧ loss ≤ 100 ∧
      (success = count → loss = 0) ∧ (success = 0 → loss = 100) := by
  obtain ⟨s, rfl⟩ := Int.eq_ofNat_of_zero_le h3
  obtain ⟨c, rfl⟩ := Int.eq_ofNat_of_zero_le (le_trans h3 h4)
  obtain ⟨k, hk, hk1, hk2, hk3⟩ := lossPercent_natCast s c (by omega) (by omega) (by omega)
  refine ⟨100 - (k : Int), hk, by omega, by omega, ?_, ?_⟩
  · intro h
    have := hk2 (by exact_mod_cast h)
    omega
  · intro h
    have := hk3 (by exact_mod_cast h)
    omega

/-- C5, for 3 answered attempts out of 7. -/
theorem loss_percent_range_witness :
    ((1 : Int) ≤ 7 ∧ (7 : Int) ≤ 20000 ∧ (0 : Int) ≤ 3 ∧ (3 : Int) ≤ 7) ∧
    ∃ loss, lossPercent 3 7 = some loss ∧ 0 ≤ loss ∧ loss ≤ 100 ∧
      ((3 : Int) = 7 → loss = 0) ∧ ((3 : Int) = 0 → loss = 100) :=
  ⟨by decide, loss_percent_range 3 7 (by decide) (by decide) (by decide) (by decide)⟩

set_option maxRecDepth 100000 in
/-- C4: with 29 answered attempts out of 100, line 181 computes
`float64(29)/float64(100) = 0.28999999999999998`, times `100.0` is
`28.999999999999996`, truncated to `28`: the loss printed is `72`, while
`100 - floor(100 * 29 / 100)` is `71`. -/
theorem loss_percent_29_of_100 :
    lossPercent 29 100 = some 72 ∧
    (100 - (100 * 29) / 100 : Int) = 71 ∧
    summaries (Do Env.lossy centuryPinger World.init).2.trace = [(100, 29, some 72)] := by
  have hloss : lossPercent 29 100 = some 72 := by decide
  refine ⟨hloss, by decide, ?_⟩
  have h := (Do_resolved Env.lossy centuryPinger World.init sampleAddr rfl).2.2.2.2.2.2
  have hc := (foldl_record_counts (replies Env.lossy 0 100) Stats.init).1
  have hl : (replies Env.lossy 0 100).length = 29 := by decide
  have h0 : Stats.init.success = 0 := rfl
  have hn : centuryPinger.count.toNat = 100 := rfl
  have ha : World.init.attempts = 0 := rfl
  rw [hl, h0] at hc
  rw [hn, ha, hc] at h
  rw [h]
  have hcount : centuryPinger.count = 100 := rfl
  have hs : ((0 : Int) + ((29 : Nat) : Int)) = 29 := rfl
  rw [hcount, hs, hloss]
  rfl

end Stratum
